import Mathlib

/-!
Shallow embedding of the three-interact interaction-coordination core
(`src/Interactable.ts`, `src/InteractManager.ts`, `src/events/InteractEvent.ts`)
and proofs about its dispatch, hover and drag behaviour.

Modelling conventions:
* Scene-object identities (`THREE.Object3D` references) are natural numbers.
* JavaScript `Map`s are insertion-ordered association lists with `Map`
  semantics (`jsGet`, `jsSet`, `jsDelete`).
* A handler is its reference identity (a `Nat`) together with a list of the
  actions its body performs when invoked: setting the event's stop flag,
  calling `off` on the owning wrapper, or nothing.
* `Interactable.dispatchEvent` models `handlers.forEach(...)` over the live
  array: the iteration length is captured at loop start, the element at each
  index is re-read from the current (possibly spliced) array, and the array
  iterated is aliased with the map entry for the dispatched kind.
* The external raycaster is an oracle; every entry point is parameterised by
  the ordered hit list it returns for the current sample, exactly as the
  repository's own tests mock `performRaycast`.
* Every handler invocation is recorded in a log entry carrying the handler
  id and the event's kind, target and delta at invocation time.
-/

namespace ThreeInteract

/-- Event kinds used by the coordinator (`InteractEventType`, restricted to
the kinds the coordinator dispatches). -/
inductive EKind where
  | click
  | drag
  | pointerdown
  | pointerup
  | pointermove
  | pointerenter
  | pointerleave
deriving DecidableEq, Repr

/-- A 2D device-pixel vector (the `delta` field of `InteractEvent`). -/
structure Vec2 where
  x : Int
  y : Int
deriving DecidableEq, Repr

/-- A hit record returned by the raycaster: the hit object's identity and
its distance along the ray (`THREE.Intersection`, restricted to the fields
the coordinator reads). -/
structure Intersection where
  object : Nat
  distance : Int
deriving DecidableEq, Repr

/-- One primitive action a handler body may perform while being invoked. -/
inductive HAct where
  | stop
  | offAll (k : EKind)
  | offOne (k : EKind) (hid : Nat)
  | nop
deriving DecidableEq, Repr

/-- A handler: its reference identity `id` plus the actions its body runs. -/
structure Handler where
  id : Nat
  acts : List HAct
deriving DecidableEq, Repr

/-- A record of one handler invocation: the handler's id and the event's
kind, target and delta at the moment the handler was called. -/
structure Invocation where
  hid : Nat
  etype : EKind
  target : Nat
  delta : Vec2
deriving DecidableEq, Repr

section JsMap

variable {α β : Type} [DecidableEq α]

/-- `Map.get`: first entry with the given key, if any. -/
def jsGet : List (α × β) → α → Option β
  | [], _ => none
  | (k, v) :: rest, a => if k = a then some v else jsGet rest a

/-- `Map.set`: replace the value of an existing key in place (preserving
insertion order), or append a new entry at the end. -/
def jsSet : List (α × β) → α → β → List (α × β)
  | [], a, b => [(a, b)]
  | (k, v) :: rest, a, b => if k = a then (a, b) :: rest else (k, v) :: jsSet rest a b

/-- `Map.delete`: remove the entry with the given key. -/
def jsDelete (l : List (α × β)) (a : α) : List (α × β) :=
  l.filter (fun p => p.1 ≠ a)

theorem jsGet_jsSet (l : List (α × β)) (k : α) (v : β) (o : α) :
    jsGet (jsSet l k v) o = if o = k then some v else jsGet l o := by
  induction l with
  | nil =>
    by_cases h : o = k
    · simp [jsSet, jsGet, h]
    · simp [jsSet, jsGet, h, Ne.symm h]
  | cons p rest ih =>
    obtain ⟨pk, pv⟩ := p
    by_cases hk : pk = k
    · subst hk
      by_cases ho : o = pk
      · simp [jsSet, jsGet, ho]
      · simp [jsSet, jsGet, ho, Ne.symm ho]
    · by_cases ho : pk = o
      · subst ho
        simp [jsSet, jsGet, hk, Ne.symm hk]
      · simp [jsSet, jsGet, hk, ho, ih]

theorem jsGet_jsDelete_self (l : List (α × β)) (k : α) :
    jsGet (jsDelete l k) k = none := by
  induction l with
  | nil => simp [jsDelete, jsGet]
  | cons p rest ih =>
    obtain ⟨pk, pv⟩ := p
    by_cases h : pk = k
    · subst h
      simpa [jsDelete] using ih
    · simpa [jsDelete, jsGet, h] using ih

theorem jsGet_jsDelete_ne (l : List (α × β)) (k o : α) (h : o ≠ k) :
    jsGet (jsDelete l k) o = jsGet l o := by
  induction l with
  | nil => simp [jsDelete, jsGet]
  | cons p rest ih =>
    obtain ⟨pk, pv⟩ := p
    by_cases hk : pk = k
    · subst hk
      simp [jsDelete, jsGet, Ne.symm h]
      simpa [jsDelete] using ih
    · by_cases ho : pk = o
      · subst ho
        simp [jsDelete, jsGet, hk]
      · simpa [jsDelete, jsGet, hk, ho] using ih

end JsMap

/-- The event value dispatched to handlers (`InteractEvent`); the opaque
`originalEvent` payload is omitted. -/
structure InteractEvent where
  type : EKind
  target : Nat
  intersection : Intersection
  delta : Vec2
  stopped : Bool
deriving DecidableEq, Repr

/-- `new InteractEvent(type, target, intersection, originalEvent)`: delta is
zero and the stop flag is clear. -/
def InteractEvent.new (t : EKind) (target : Nat) (inter : Intersection) : InteractEvent :=
  ⟨t, target, inter, ⟨0, 0⟩, false⟩

/-- `InteractEvent.stopPropagation`. -/
def InteractEvent.stopPropagation (e : InteractEvent) : InteractEvent :=
  { e with stopped := true }

/-- Per-object event registry (`Interactable`): the wrapped object identity
and the `eventHandlers` map from kind to handler array. -/
structure Interactable where
  object : Nat
  eventHandlers : List (EKind × List Handler)
deriving DecidableEq, Repr

/-- `new Interactable(object)`. -/
def Interactable.new (obj : Nat) : Interactable :=
  ⟨obj, []⟩

/-- `Interactable.on(type, handler)`: append to the kind's array, creating
it first when absent. -/
def Interactable.on (it : Interactable) (t : EKind) (h : Handler) : Interactable :=
  match jsGet it.eventHandlers t with
  | some hs => { it with eventHandlers := jsSet it.eventHandlers t (hs ++ [h]) }
  | none => { it with eventHandlers := jsSet it.eventHandlers t [h] }

/-- `handlers.splice(handlers.indexOf(handler), 1)`: drop the first entry
whose reference identity matches. -/
def removeFirst : List Handler → Nat → List Handler
  | [], _ => []
  | h :: rest, hid => if h.id = hid then rest else h :: removeFirst rest hid

/-- `Interactable.off(type, handler?)`. -/
def Interactable.off (it : Interactable) (t : EKind) (h? : Option Handler) : Interactable :=
  match h? with
  | none => { it with eventHandlers := jsDelete it.eventHandlers t }
  | some h =>
    match jsGet it.eventHandlers t with
    | none => it
    | some hs =>
      let hs' := removeFirst hs h.id
      if hs' = [] then { it with eventHandlers := jsDelete it.eventHandlers t }
      else { it with eventHandlers := jsSet it.eventHandlers t hs' }

/-- `Interactable.removeAll()`. -/
def Interactable.removeAll (it : Interactable) : Interactable :=
  { it with eventHandlers := [] }

/-- State threaded through one `dispatchEvent` call: the live handler array
`forEach` iterates, the wrapper's handler map (whose entry for the
dispatched kind `dkind` aliases `live` while it exists), the event, and the
invocation log. -/
structure DispState where
  live : List Handler
  ehs : List (EKind × List Handler)
  dkind : EKind
  ev : InteractEvent
  log : List Invocation
deriving DecidableEq, Repr

/-- Effect of one handler action on the dispatch state. `offAll` deletes
the map entry but leaves the array already being iterated untouched;
`offOne` splices the map's array, which for the dispatched kind is the very
array being iterated. -/
def applyAct (st : DispState) (a : HAct) : DispState :=
  match a with
  | .nop => st
  | .stop => { st with ev := st.ev.stopPropagation }
  | .offAll k => { st with ehs := jsDelete st.ehs k }
  | .offOne k hid =>
    match jsGet st.ehs k with
    | none => st
    | some hs =>
      let hs' := removeFirst hs hid
      let ehs' := if hs' = [] then jsDelete st.ehs k else jsSet st.ehs k hs'
      if k = st.dkind then { st with ehs := ehs', live := hs' }
      else { st with ehs := ehs' }

/-- Run a handler body: the list of its actions, in order. -/
def runActs (acts : List HAct) (st : DispState) : DispState :=
  acts.foldl applyAct st

/-- Invoke one handler: record the invocation, then run its body. -/
def invokeHandler (h : Handler) (st : DispState) : DispState :=
  let st := { st with log := st.log ++ [⟨h.id, st.ev.type, st.ev.target, st.ev.delta⟩] }
  runActs h.acts st

/-- `handlers.forEach(handler => handler(event))`: visit indices `0` to the
length captured at loop start, re-reading the (possibly spliced) live array
at each index and skipping indices no longer present. -/
def forEachFrom : Nat → Nat → DispState → DispState
  | _, 0, st => st
  | i, fuel + 1, st =>
    let st' := if h : i < st.live.length then invokeHandler (st.live.get ⟨i, h⟩) st else st
    forEachFrom (i + 1) fuel st'

/-- Result of `Interactable.dispatchEvent`: the updated wrapper, the event
after the handlers ran, the boolean return value, and the invocation log. -/
structure DispResult where
  wrapper : Interactable
  ev : InteractEvent
  handled : Bool
  log : List Invocation
deriving DecidableEq, Repr

/-- `Interactable.dispatchEvent(event)`: look up the kind's array; if
absent return `false` with no side effects; otherwise `forEach` over the
live array and finally return `handlers.length > 0`, evaluated on the live
array after the handlers ran. -/
def Interactable.dispatchEvent (it : Interactable) (e : InteractEvent) : DispResult :=
  match jsGet it.eventHandlers e.type with
  | none => ⟨it, e, false, []⟩
  | some handlers =>
    let st := forEachFrom 0 handlers.length ⟨handlers, it.eventHandlers, e.type, e, []⟩
    ⟨{ it with eventHandlers := st.ehs }, st.ev, decide (0 < st.live.length), st.log⟩

/-- `Interactable.onClick(handler)`. -/
def Interactable.onClick (it : Interactable) (h : Handler) : Interactable :=
  it.on .click h

/-- `Interactable.onDrag(handler)`. -/
def Interactable.onDrag (it : Interactable) (h : Handler) : Interactable :=
  it.on .drag h

/-- `Interactable.onPointerEnter(handler)`. -/
def Interactable.onPointerEnter (it : Interactable) (h : Handler) : Interactable :=
  it.on .pointerenter h

/-- `Interactable.onPointerLeave(handler)`. -/
def Interactable.onPointerLeave (it : Interactable) (h : Handler) : Interactable :=
  it.on .pointerleave h

/-- `Interactable.onPointerMove(handler)`. -/
def Interactable.onPointerMove (it : Interactable) (h : Handler) : Interactable :=
  it.on .pointermove h

/-- Coordinator state (`InteractManager`): the identity-keyed wrapper map,
the hover map's insertion-ordered key list, the active and drag targets and
the last raw pointer position. The camera, DOM element and raycaster are
external and omitted; the raycast result is passed to each entry point. -/
structure InteractManager where
  interactables : List (Nat × Interactable)
  hoveredObjects : List Nat
  activeObject : Option Nat
  dragObject : Option Nat
  lastMousePosition : Vec2
deriving DecidableEq, Repr

/-- A freshly constructed manager: empty maps, no targets, origin pointer. -/
def InteractManager.new : InteractManager :=
  ⟨[], [], none, none, ⟨0, 0⟩⟩

/-- `InteractManager.add(object)`: return the existing wrapper when present,
otherwise create, store and return a fresh one. -/
def InteractManager.add (m : InteractManager) (obj : Nat) : InteractManager × Interactable :=
  match jsGet m.interactables obj with
  | some it => (m, it)
  | none =>
    let it := Interactable.new obj
    ({ m with interactables := jsSet m.interactables obj it }, it)

/-- `InteractManager.remove(object)`: evict the identity from the wrapper
map and the hover map, then clear `activeObject` and `dragObject` when they
equal it. -/
def InteractManager.remove (m : InteractManager) (obj : Nat) : InteractManager :=
  let m := { m with
    interactables := jsDelete m.interactables obj,
    hoveredObjects := m.hoveredObjects.filter (fun o => o ≠ obj) }
  let m := if m.activeObject = some obj then { m with activeObject := none } else m
  if m.dragObject = some obj then { m with dragObject := none } else m

/-- `InteractManager.updatePointer(event)`: delta of the raw client
coordinates against `lastMousePosition`, which is then updated. The
normalised device coordinates only feed the external raycaster and are
omitted. -/
def InteractManager.updatePointer (m : InteractManager) (cx cy : Int) :
    InteractManager × Int × Int :=
  let dx := cx - m.lastMousePosition.x
  let dy := cy - m.lastMousePosition.y
  ({ m with lastMousePosition := ⟨cx, cy⟩ }, dx, dy)

/-- `InteractManager.getIntersection(object)`: the oracle's hit record for
that object under the current ray, or the synthesized zero-distance record
when the object is not hit. Modelled consistently with the sample's full
hit list. -/
def getIntersection (hits : List Intersection) (obj : Nat) : Intersection :=
  match hits.find? (fun i => i.object == obj) with
  | some i => i
  | none => ⟨obj, 0⟩

/-- The `onClick` hit loop: visit hits in order, skip unregistered objects,
dispatch a fresh `click` event through the object's registry, and break as
soon as the event's stop flag is set after a dispatch. -/
def clickLoop : InteractManager → List Intersection → List Invocation →
    InteractManager × List Invocation
  | m, [], log => (m, log)
  | m, hit :: rest, log =>
    match jsGet m.interactables hit.object with
    | none => clickLoop m rest log
    | some it =>
      let r := it.dispatchEvent (InteractEvent.new .click hit.object hit)
      let m := { m with interactables := jsSet m.interactables hit.object r.wrapper }
      if r.ev.stopped then (m, log ++ r.log)
      else clickLoop m rest (log ++ r.log)

/-- `InteractManager.onClick(event)` given the raycast result. -/
def InteractManager.onClick (m : InteractManager) (cx cy : Int)
    (hits : List Intersection) : InteractManager × List Invocation :=
  let (m, _, _) := m.updatePointer cx cy
  clickLoop m hits []

/-- The `onPointerDown` hit loop: like the click loop with kind
`pointerdown`, additionally recording each dispatched object as the drag
and active target before testing the stop flag. -/
def pointerDownLoop : InteractManager → List Intersection → List Invocation →
    InteractManager × List Invocation
  | m, [], log => (m, log)
  | m, hit :: rest, log =>
    match jsGet m.interactables hit.object with
    | none => pointerDownLoop m rest log
    | some it =>
      let r := it.dispatchEvent (InteractEvent.new .pointerdown hit.object hit)
      let m := { m with
        interactables := jsSet m.interactables hit.object r.wrapper,
        dragObject := some hit.object,
        activeObject := some hit.object }
      if r.ev.stopped then (m, log ++ r.log)
      else pointerDownLoop m rest (log ++ r.log)

/-- `InteractManager.onPointerDown(event)` given the raycast result. -/
def InteractManager.onPointerDown (m : InteractManager) (cx cy : Int)
    (hits : List Intersection) : InteractManager × List Invocation :=
  let (m, _, _) := m.updatePointer cx cy
  pointerDownLoop m hits []

/-- The `onPointerUp` hit loop: stop-on-first-consumer with kind
`pointerup`. -/
def pointerUpLoop : InteractManager → List Intersection → List Invocation →
    InteractManager × List Invocation
  | m, [], log => (m, log)
  | m, hit :: rest, log =>
    match jsGet m.interactables hit.object with
    | none => pointerUpLoop m rest log
    | some it =>
      let r := it.dispatchEvent (InteractEvent.new .pointerup hit.object hit)
      let m := { m with interactables := jsSet m.interactables hit.object r.wrapper }
      if r.ev.stopped then (m, log ++ r.log)
      else pointerUpLoop m rest (log ++ r.log)

/-- `InteractManager.onPointerUp(event)`: update the pointer, clear the
drag target unconditionally, run the `pointerup` hit loop, then clear the
active target. -/
def InteractManager.onPointerUp (m : InteractManager) (cx cy : Int)
    (hits : List Intersection) : InteractManager × List Invocation :=
  let (m, _, _) := m.updatePointer cx cy
  let m := { m with dragObject := none }
  let (m, log) := pointerUpLoop m hits []
  ({ m with activeObject := none }, log)

/-- The `onPointerMove` hit loop: stop-on-first-consumer with kind
`pointermove`, the fresh event carrying the sample's delta. -/
def pointerMoveLoop (dx dy : Int) : InteractManager → List Intersection →
    List Invocation → InteractManager × List Invocation
  | m, [], log => (m, log)
  | m, hit :: rest, log =>
    match jsGet m.interactables hit.object with
    | none => pointerMoveLoop dx dy m rest log
    | some it =>
      let e := InteractEvent.new .pointermove hit.object hit
      let r := it.dispatchEvent { e with delta := ⟨dx, dy⟩ }
      let m := { m with interactables := jsSet m.interactables hit.object r.wrapper }
      if r.ev.stopped then (m, log ++ r.log)
      else pointerMoveLoop dx dy m rest (log ++ r.log)

/-- The hover-enter loop of `processRaycast`: visit hits in order, skip
unregistered objects and objects already hovered; otherwise record the
object as hovered, dispatch a fresh `pointerenter` event, and break only
when the dispatch both returned `true` and left the stop flag set. -/
def enterLoop : InteractManager → List Intersection → List Invocation →
    InteractManager × List Invocation
  | m, [], log => (m, log)
  | m, hit :: rest, log =>
    match jsGet m.interactables hit.object with
    | none => enterLoop m rest log
    | some it =>
      if hit.object ∈ m.hoveredObjects then enterLoop m rest log
      else
        let m := { m with hoveredObjects := m.hoveredObjects ++ [hit.object] }
        let r := it.dispatchEvent (InteractEvent.new .pointerenter hit.object hit)
        let m := { m with interactables := jsSet m.interactables hit.object r.wrapper }
        if r.handled && r.ev.stopped then (m, log ++ r.log)
        else enterLoop m rest (log ++ r.log)

/-- The hover-leave loop of `processRaycast`: iterate the hover map's keys;
every key absent from the current hit set is deleted from the hover map and,
when still registered, dispatched a `pointerleave` event unconditionally —
there is no early break. -/
def leaveLoop (hits : List Intersection) : List Nat → InteractManager →
    List Invocation → InteractManager × List Invocation
  | [], m, log => (m, log)
  | obj :: rest, m, log =>
    if (hits.map Intersection.object).contains obj then leaveLoop hits rest m log
    else
      let m := { m with hoveredObjects := m.hoveredObjects.filter (fun o => o ≠ obj) }
      match jsGet m.interactables obj with
      | none => leaveLoop hits rest m log
      | some it =>
        let r := it.dispatchEvent
          (InteractEvent.new .pointerleave obj (getIntersection hits obj))
        let m := { m with interactables := jsSet m.interactables obj r.wrapper }
        leaveLoop hits rest m (log ++ r.log)

/-- `InteractManager.processRaycast(event)` given the raycast result: the
hover-enter loop, then the hover-leave loop over the hover map's keys. -/
def InteractManager.processRaycast (m : InteractManager)
    (hits : List Intersection) : InteractManager × List Invocation :=
  let (m, entLog) := enterLoop m hits []
  let (m, lvLog) := leaveLoop hits m.hoveredObjects m []
  (m, entLog ++ lvLog)

/-- `InteractManager.onPointerMove(event)` given the raycast result: update
the pointer; if a drag target is set and registered, dispatch one `drag`
event to it carrying the delta (no hit-list iteration, no stop check); then
the `pointermove` hit loop; then hover diffing via `processRaycast`. -/
def InteractManager.onPointerMove (m : InteractManager) (cx cy : Int)
    (hits : List Intersection) : InteractManager × List Invocation :=
  let (m, dx, dy) := m.updatePointer cx cy
  let (m, dragLog) :=
    match m.dragObject with
    | none => (m, ([] : List Invocation))
    | some dobj =>
      match jsGet m.interactables dobj with
      | none => (m, [])
      | some it =>
        let e := InteractEvent.new .drag dobj (getIntersection hits dobj)
        let r := it.dispatchEvent { e with delta := ⟨dx, dy⟩ }
        ({ m with interactables := jsSet m.interactables dobj r.wrapper }, r.log)
  let (m, moveLog) := pointerMoveLoop dx dy m hits []
  let (m, hoverLog) := m.processRaycast hits
  (m, dragLog ++ moveLog ++ hoverLog)

/-! Helper lemmas about one `dispatchEvent` call. -/

theorem applyAct_fields (st : DispState) (a : HAct) :
    (applyAct st a).dkind = st.dkind ∧
    (applyAct st a).ev.type = st.ev.type ∧
    (applyAct st a).ev.target = st.ev.target ∧
    (applyAct st a).ev.delta = st.ev.delta ∧
    (applyAct st a).log = st.log := by
  cases a with
  | nop => exact ⟨rfl, rfl, rfl, rfl, rfl⟩
  | stop => exact ⟨rfl, rfl, rfl, rfl, rfl⟩
  | offAll k => exact ⟨rfl, rfl, rfl, rfl, rfl⟩
  | offOne k hid =>
    simp only [applyAct]
    cases h : jsGet st.ehs k with
    | none => exact ⟨rfl, rfl, rfl, rfl, rfl⟩
    | some hs =>
      by_cases hk : k = st.dkind <;> simp [hk]

theorem runActs_fields (acts : List HAct) (st : DispState) :
    (runActs acts st).dkind = st.dkind ∧
    (runActs acts st).ev.type = st.ev.type ∧
    (runActs acts st).ev.target = st.ev.target ∧
    (runActs acts st).ev.delta = st.ev.delta ∧
    (runActs acts st).log = st.log := by
  induction acts generalizing st with
  | nil => exact ⟨rfl, rfl, rfl, rfl, rfl⟩
  | cons a rest ih =>
    have h1 := applyAct_fields st a
    have h2 := ih (applyAct st a)
    simp only [runActs, List.foldl_cons] at *
    exact ⟨h2.1.trans h1.1, h2.2.1.trans h1.2.1, h2.2.2.1.trans h1.2.2.1,
      h2.2.2.2.1.trans h1.2.2.2.1, h2.2.2.2.2.trans h1.2.2.2.2⟩

theorem invokeHandler_fields (h : Handler) (st : DispState) :
    (invokeHandler h st).dkind = st.dkind ∧
    (invokeHandler h st).ev.type = st.ev.type ∧
    (invokeHandler h st).ev.target = st.ev.target ∧
    (invokeHandler h st).ev.delta = st.ev.delta ∧
    (invokeHandler h st).log =
      st.log ++ [⟨h.id, st.ev.type, st.ev.target, st.ev.delta⟩] := by
  have := runActs_fields h.acts
    { st with log := st.log ++ [⟨h.id, st.ev.type, st.ev.target, st.ev.delta⟩] }
  exact this

theorem forEachFrom_log_ext (fuel : Nat) : ∀ (i : Nat) (st : DispState),
    ∃ ext, (forEachFrom i fuel st).log = st.log ++ ext ∧
      (forEachFrom i fuel st).ev.type = st.ev.type ∧
      (forEachFrom i fuel st).ev.target = st.ev.target ∧
      ∀ inv ∈ ext, inv.etype = st.ev.type ∧ inv.target = st.ev.target := by
  induction fuel with
  | zero =>
    intro i st
    exact ⟨[], by simp [forEachFrom]⟩
  | succ fuel ih =>
    intro i st
    simp only [forEachFrom]
    by_cases hlt : i < st.live.length
    · simp only [hlt, dif_pos]
      set h0 := st.live.get ⟨i, hlt⟩ with hh0
      obtain ⟨ext, hlog, htyp, htgt, hmem⟩ := ih (i + 1) (invokeHandler h0 st)
      have hf := invokeHandler_fields h0 st
      refine ⟨⟨h0.id, st.ev.type, st.ev.target, st.ev.delta⟩ :: ext, ?_, ?_, ?_, ?_⟩
      · rw [hlog, hf.2.2.2.2]
        simp
      · rw [htyp, hf.2.1]
      · rw [htgt, hf.2.2.1]
      · intro inv hinv
        rcases List.mem_cons.mp hinv with h | h
        · subst h
          exact ⟨rfl, rfl⟩
        · have := hmem inv h
          rw [hf.2.1, hf.2.2.1] at this
          exact this
    · simp only [hlt, dif_neg, not_false_iff]
      exact ih (i + 1) st

theorem dispatchEvent_none (it : Interactable) (e : InteractEvent)
    (h : jsGet it.eventHandlers e.type = none) :
    it.dispatchEvent e = ⟨it, e, false, []⟩ := by
  simp [Interactable.dispatchEvent, h]

theorem dispatchEvent_log_mem (it : Interactable) (e : InteractEvent) :
    ∀ inv ∈ (it.dispatchEvent e).log, inv.etype = e.type ∧ inv.target = e.target := by
  intro inv hinv
  unfold Interactable.dispatchEvent at hinv
  cases h : jsGet it.eventHandlers e.type with
  | none => simp [h] at hinv
  | some handlers =>
    simp only [h] at hinv
    obtain ⟨ext, hlog, _, _, hmem⟩ :=
      forEachFrom_log_ext handlers.length 0 ⟨handlers, it.eventHandlers, e.type, e, []⟩
    rw [hlog] at hinv
    simpa using hmem inv (by simpa using hinv)

/-- Aliasing invariant of one dispatch: while the map still has an entry
for the dispatched kind, that entry is the very array being iterated. -/
def Linked (st : DispState) : Prop :=
  ∀ v, jsGet st.ehs st.dkind = some v → v = st.live

theorem removeFirst_subset (hs : List Handler) (hid : Nat) :
    removeFirst hs hid ⊆ hs := by
  induction hs with
  | nil => simp [removeFirst]
  | cons h rest ih =>
    simp only [removeFirst]
    by_cases hh : h.id = hid
    · simp only [hh, if_pos rfl]
      exact List.subset_cons_self h rest
    · simp only [hh, if_neg, not_false_iff]
      exact List.cons_subset_cons h ih

theorem applyAct_linked (st : DispState) (a : HAct) (hL : Linked st) :
    Linked (applyAct st a) ∧ (applyAct st a).live ⊆ st.live := by
  cases a with
  | nop => exact ⟨hL, fun x hx => hx⟩
  | stop => exact ⟨hL, fun x hx => hx⟩
  | offAll k =>
    refine ⟨?_, fun x hx => hx⟩
    intro v hv
    simp only [applyAct] at hv
    by_cases hk : k = st.dkind
    · subst hk
      rw [jsGet_jsDelete_self] at hv
      exact absurd hv (by simp)
    · rw [jsGet_jsDelete_ne _ _ _ (Ne.symm hk)] at hv
      exact hL v hv
  | offOne k hid =>
    simp only [applyAct]
    cases h : jsGet st.ehs k with
    | none => exact ⟨hL, fun x hx => hx⟩
    | some hs =>
      by_cases hk : k = st.dkind
      · subst hk
        have hhs : hs = st.live := hL hs h
        subst hhs
        constructor
        · intro v hv
          by_cases hemp : removeFirst st.live hid = []
          · simp [hemp, jsGet_jsDelete_self] at hv
          · simp [hemp, jsGet_jsSet] at hv
            simp [hemp, hv]
        · simpa using removeFirst_subset st.live hid
      · simp only [if_neg hk]
        refine ⟨?_, fun x hx => hx⟩
        intro v hv
        simp only at hv
        by_cases hemp : removeFirst hs hid = []
        · rw [if_pos hemp, jsGet_jsDelete_ne _ _ _ (Ne.symm hk)] at hv
          exact hL v hv
        · rw [if_neg hemp, jsGet_jsSet] at hv
          rw [if_neg (Ne.symm hk)] at hv
          exact hL v hv

theorem runActs_linked (acts : List HAct) (st : DispState) (hL : Linked st) :
    Linked (runActs acts st) ∧ (runActs acts st).live ⊆ st.live := by
  induction acts generalizing st with
  | nil => exact ⟨hL, fun x hx => hx⟩
  | cons a rest ih =>
    have h1 := applyAct_linked st a hL
    have h2 := ih (applyAct st a) h1.1
    simp only [runActs, List.foldl_cons] at *
    exact ⟨h2.1, fun x hx => h1.2 (h2.2 hx)⟩

theorem invokeHandler_linked (h : Handler) (st : DispState) (hL : Linked st) :
    Linked (invokeHandler h st) ∧ (invokeHandler h st).live ⊆ st.live := by
  have hL' : Linked { st with log := st.log ++ [⟨h.id, st.ev.type, st.ev.target, st.ev.delta⟩] } := hL
  exact runActs_linked h.acts _ hL'

theorem forEachFrom_log_hids (fuel : Nat) : ∀ (i : Nat) (st : DispState),
    Linked st → ∀ inv ∈ (forEachFrom i fuel st).log,
      inv ∈ st.log ∨ inv.hid ∈ st.live.map Handler.id := by
  induction fuel with
  | zero =>
    intro i st _ inv hinv
    exact Or.inl (by simpa [forEachFrom] using hinv)
  | succ fuel ih =>
    intro i st hL inv hinv
    simp only [forEachFrom] at hinv
    by_cases hlt : i < st.live.length
    · rw [dif_pos hlt] at hinv
      set h0 := st.live.get ⟨i, hlt⟩ with hh0
      have hmem0 : h0 ∈ st.live := List.get_mem st.live i hlt
      have hlk := invokeHandler_linked h0 st hL
      rcases ih (i + 1) (invokeHandler h0 st) hlk.1 inv hinv with hcase | hcase
      · rw [(invokeHandler_fields h0 st).2.2.2.2] at hcase
        rcases List.mem_append.mp hcase with hcase | hcase
        · exact Or.inl hcase
        · right
          have : inv = ⟨h0.id, st.ev.type, st.ev.target, st.ev.delta⟩ := by
            simpa using hcase
          rw [this]
          exact List.mem_map.mpr ⟨h0, hmem0, rfl⟩
      · right
        rcases List.mem_map.mp hcase with ⟨x, hx, hxi⟩
        exact List.mem_map.mpr ⟨x, hlk.2 hx, hxi⟩
    · rw [dif_neg hlt] at hinv
      exact ih (i + 1) st hL inv hinv

theorem dispatchEvent_log_hid (it : Interactable) (e : InteractEvent) :
    ∀ inv ∈ (it.dispatchEvent e).log, ∃ hs,
      jsGet it.eventHandlers e.type = some hs ∧ inv.hid ∈ hs.map Handler.id := by
  intro inv hinv
  unfold Interactable.dispatchEvent at hinv
  cases h : jsGet it.eventHandlers e.type with
  | none => simp [h] at hinv
  | some handlers =>
    simp only [h] at hinv
    have hL : Linked ⟨handlers, it.eventHandlers, e.type, e, []⟩ := by
      intro v hv
      simp only at hv ⊢
      rw [h] at hv
      exact (Option.some.inj hv).symm
    have := forEachFrom_log_hids handlers.length 0
      ⟨handlers, it.eventHandlers, e.type, e, []⟩ hL inv (by simpa using hinv)
    rcases this with hcase | hcase
    · simp at hcase
    · exact ⟨handlers, rfl, by simpa using hcase⟩

/-! Helper lemmas about the coordinator's hit loops. -/

theorem isSome_jsSet {α β : Type} [DecidableEq α] (l : List (α × β)) (k : α) (v : β)
    (o : α) (hk : (jsGet l k).isSome = true) :
    (jsGet (jsSet l k v) o).isSome = (jsGet l o).isSome := by
  rw [jsGet_jsSet]
  by_cases ho : o = k
  · subst ho
    simpa using hk.symm
  · simp [ho]

theorem clickLoop_skip (m : InteractManager) (hit : Intersection)
    (rest : List Intersection) (log : List Invocation)
    (h : jsGet m.interactables hit.object = none) :
    clickLoop m (hit :: rest) log = clickLoop m rest log := by
  simp [clickLoop, h]

theorem clickLoop_halt (m : InteractManager) (hit : Intersection)
    (rest : List Intersection) (log : List Invocation) (it : Interactable)
    (h : jsGet m.interactables hit.object = some it)
    (hstop : (it.dispatchEvent (InteractEvent.new .click hit.object hit)).ev.stopped = true) :
    clickLoop m (hit :: rest) log =
      ({ m with interactables := jsSet m.interactables hit.object
                  (it.dispatchEvent (InteractEvent.new .click hit.object hit)).wrapper },
       log ++ (it.dispatchEvent (InteractEvent.new .click hit.object hit)).log) := by
  simp [clickLoop, h, hstop]

theorem clickLoop_step (m : InteractManager) (hit : Intersection)
    (rest : List Intersection) (log : List Invocation) (it : Interactable)
    (h : jsGet m.interactables hit.object = some it)
    (hgo : (it.dispatchEvent (InteractEvent.new .click hit.object hit)).ev.stopped = false) :
    clickLoop m (hit :: rest) log =
      clickLoop
        { m with interactables := jsSet m.interactables hit.object
                   (it.dispatchEvent (InteractEvent.new .click hit.object hit)).wrapper }
        rest (log ++ (it.dispatchEvent (InteractEvent.new .click hit.object hit)).log) := by
  simp [clickLoop, h, hgo]

theorem clickLoop_state : ∀ (hits : List Intersection) (m : InteractManager)
    (log : List Invocation),
    (clickLoop m hits log).1.hoveredObjects = m.hoveredObjects ∧
    (clickLoop m hits log).1.activeObject = m.activeObject ∧
    (clickLoop m hits log).1.dragObject = m.dragObject ∧
    (clickLoop m hits log).1.lastMousePosition = m.lastMousePosition ∧
    ∀ o, (jsGet (clickLoop m hits log).1.interactables o).isSome =
      (jsGet m.interactables o).isSome := by
  intro hits
  induction hits with
  | nil => intro m log; simp [clickLoop]
  | cons hit rest ih =>
    intro m log
    cases h : jsGet m.interactables hit.object with
    | none => simpa [clickLoop_skip m hit rest log h] using ih m log
    | some it =>
      cases hs : (it.dispatchEvent (InteractEvent.new .click hit.object hit)).ev.stopped with
      | true =>
        rw [clickLoop_halt m hit rest log it h hs]
        refine ⟨rfl, rfl, rfl, rfl, fun o => ?_⟩
        exact isSome_jsSet _ _ _ _ (by simp [h])
      | false =>
        rw [clickLoop_step m hit rest log it h hs]
        obtain ⟨h1, h2, h3, h4, h5⟩ := ih _ _
        refine ⟨h1, h2, h3, h4, fun o => ?_⟩
        exact (h5 o).trans (isSome_jsSet _ _ _ _ (by simp [h]))

theorem clickLoop_log_kind : ∀ (hits : List Intersection) (m : InteractManager)
    (log : List Invocation), ∀ inv ∈ (clickLoop m hits log).2,
    inv ∈ log ∨ inv.etype = .click := by
  intro hits
  induction hits with
  | nil => intro m log inv hinv; exact Or.inl (by simpa [clickLoop] using hinv)
  | cons hit rest ih =>
    intro m log inv hinv
    cases h : jsGet m.interactables hit.object with
    | none =>
      rw [clickLoop_skip m hit rest log h] at hinv
      exact ih m log inv hinv
    | some it =>
      cases hs : (it.dispatchEvent (InteractEvent.new .click hit.object hit)).ev.stopped with
      | true =>
        rw [clickLoop_halt m hit rest log it h hs] at hinv
        rcases List.mem_append.mp hinv with hc | hc
        · exact Or.inl hc
        · exact Or.inr (dispatchEvent_log_mem _ _ inv hc).1
      | false =>
        rw [clickLoop_step m hit rest log it h hs] at hinv
        rcases ih _ _ inv hinv with hc | hc
        · rcases List.mem_append.mp hc with hc' | hc'
          · exact Or.inl hc'
          · exact Or.inr (dispatchEvent_log_mem _ _ inv hc').1
        · exact Or.inr hc

theorem pointerDownLoop_skip (m : InteractManager) (hit : Intersection)
    (rest : List Intersection) (log : List Invocation)
    (h : jsGet m.interactables hit.object = none) :
    pointerDownLoop m (hit :: rest) log = pointerDownLoop m rest log := by
  simp [pointerDownLoop, h]

theorem pointerDownLoop_halt (m : InteractManager) (hit : Intersection)
    (rest : List Intersection) (log : List Invocation) (it : Interactable)
    (h : jsGet m.interactables hit.object = some it)
    (hstop : (it.dispatchEvent (InteractEvent.new .pointerdown hit.object hit)).ev.stopped = true) :
    pointerDownLoop m (hit :: rest) log =
      ({ m with interactables := jsSet m.interactables hit.object
                  (it.dispatchEvent (InteractEvent.new .pointerdown hit.object hit)).wrapper,
                dragObject := some hit.object,
                activeObject := some hit.object },
       log ++ (it.dispatchEvent (InteractEvent.new .pointerdown hit.object hit)).log) := by
  simp [pointerDownLoop, h, hstop]

theorem pointerDownLoop_step (m : InteractManager) (hit : Intersection)
    (rest : List Intersection) (log : List Invocation) (it : Interactable)
    (h : jsGet m.interactables hit.object = some it)
    (hgo : (it.dispatchEvent (InteractEvent.new .pointerdown hit.object hit)).ev.stopped = false) :
    pointerDownLoop m (hit :: rest) log =
      pointerDownLoop
        { m with interactables := jsSet m.interactables hit.object
                   (it.dispatchEvent (InteractEvent.new .pointerdown hit.object hit)).wrapper,
                 dragObject := some hit.object,
                 activeObject := some hit.object }
        rest (log ++ (it.dispatchEvent (InteractEvent.new .pointerdown hit.object hit)).log) := by
  simp [pointerDownLoop, h, hgo]

theorem pointerDownLoop_state : ∀ (hits : List Intersection) (m : InteractManager)
    (log : List Invocation),
    (pointerDownLoop m hits log).1.hoveredObjects = m.hoveredObjects ∧
    (pointerDownLoop m hits log).1.lastMousePosition = m.lastMousePosition ∧
    ∀ o, (jsGet (pointerDownLoop m hits log).1.interactables o).isSome =
      (jsGet m.interactables o).isSome := by
  intro hits
  induction hits with
  | nil => intro m log; simp [pointerDownLoop]
  | cons hit rest ih =>
    intro m log
    cases h : jsGet m.interactables hit.object with
    | none => simpa [pointerDownLoop_skip m hit rest log h] using ih m log
    | some it =>
      cases hs : (it.dispatchEvent (InteractEvent.new .pointerdown hit.object hit)).ev.stopped with
      | true =>
        rw [pointerDownLoop_halt m hit rest log it h hs]
        refine ⟨rfl, rfl, fun o => ?_⟩
        exact isSome_jsSet _ _ _ _ (by simp [h])
      | false =>
        rw [pointerDownLoop_step m hit rest log it h hs]
        obtain ⟨h1, h2, h3⟩ := ih _ _
        refine ⟨h1, h2, fun o => ?_⟩
        exact (h3 o).trans (isSome_jsSet _ _ _ _ (by simp [h]))

theorem pointerDownLoop_log_kind : ∀ (hits : List Intersection) (m : InteractManager)
    (log : List Invocation), ∀ inv ∈ (pointerDownLoop m hits log).2,
    inv ∈ log ∨ inv.etype = .pointerdown := by
  intro hits
  induction hits with
  | nil => intro m log inv hinv; exact Or.inl (by simpa [pointerDownLoop] using hinv)
  | cons hit rest ih =>
    intro m log inv hinv
    cases h : jsGet m.interactables hit.object with
    | none =>
      rw [pointerDownLoop_skip m hit rest log h] at hinv
      exact ih m log inv hinv
    | some it =>
      cases hs : (it.dispatchEvent (InteractEvent.new .pointerdown hit.object hit)).ev.stopped with
      | true =>
        rw [pointerDownLoop_halt m hit rest log it h hs] at hinv
        rcases List.mem_append.mp hinv with hc | hc
        · exact Or.inl hc
        · exact Or.inr (dispatchEvent_log_mem _ _ inv hc).1
      | false =>
        rw [pointerDownLoop_step m hit rest log it h hs] at hinv
        rcases ih _ _ inv hinv with hc | hc
        · rcases List.mem_append.mp hc with hc' | hc'
          · exact Or.inl hc'
          · exact Or.inr (dispatchEvent_log_mem _ _ inv hc').1
        · exact Or.inr hc

theorem pointerUpLoop_skip (m : InteractManager) (hit : Intersection)
    (rest : List Intersection) (log : List Invocation)
    (h : jsGet m.interactables hit.object = none) :
    pointerUpLoop m (hit :: rest) log = pointerUpLoop m rest log := by
  simp [pointerUpLoop, h]

theorem pointerUpLoop_halt (m : InteractManager) (hit : Intersection)
    (rest : List Intersection) (log : List Invocation) (it : Interactable)
    (h : jsGet m.interactables hit.object = some it)
    (hstop : (it.dispatchEvent (InteractEvent.new .pointerup hit.object hit)).ev.stopped = true) :
    pointerUpLoop m (hit :: rest) log =
      ({ m with interactables := jsSet m.interactables hit.object
                  (it.dispatchEvent (InteractEvent.new .pointerup hit.object hit)).wrapper },
       log ++ (it.dispatchEvent (InteractEvent.new .pointerup hit.object hit)).log) := by
  simp [pointerUpLoop, h, hstop]

theorem pointerUpLoop_step (m : InteractManager) (hit : Intersection)
    (rest : List Intersection) (log : List Invocation) (it : Interactable)
    (h : jsGet m.interactables hit.object = some it)
    (hgo : (it.dispatchEvent (InteractEvent.new .pointerup hit.object hit)).ev.stopped = false) :
    pointerUpLoop m (hit :: rest) log =
      pointerUpLoop
        { m with interactables := jsSet m.interactables hit.object
                   (it.dispatchEvent (InteractEvent.new .pointerup hit.object hit)).wrapper }
        rest (log ++ (it.dispatchEvent (InteractEvent.new .pointerup hit.object hit)).log) := by
  simp [pointerUpLoop, h, hgo]

theorem pointerUpLoop_state : ∀ (hits : List Intersection) (m : InteractManager)
    (log : List Invocation),
    (pointerUpLoop m hits log).1.hoveredObjects = m.hoveredObjects ∧
    (pointerUpLoop m hits log).1.activeObject = m.activeObject ∧
    (pointerUpLoop m hits log).1.dragObject = m.dragObject ∧
    (pointerUpLoop m hits log).1.lastMousePosition = m.lastMousePosition ∧
    ∀ o, (jsGet (pointerUpLoop m hits log).1.interactables o).isSome =
      (jsGet m.interactables o).isSome := by
  intro hits
  induction hits with
  | nil => intro m log; simp [pointerUpLoop]
  | cons hit rest ih =>
    intro m log
    cases h : jsGet m.interactables hit.object with
    | none => simpa [pointerUpLoop_skip m hit rest log h] using ih m log
    | some it =>
      cases hs : (it.dispatchEvent (InteractEvent.new .pointerup hit.object hit)).ev.stopped with
      | true =>
        rw [pointerUpLoop_halt m hit rest log it h hs]
        refine ⟨rfl, rfl, rfl, rfl, fun o => ?_⟩
        exact isSome_jsSet _ _ _ _ (by simp [h])
      | false =>
        rw [pointerUpLoop_step m hit rest log it h hs]
        obtain ⟨h1, h2, h3, h4, h5⟩ := ih _ _
        refine ⟨h1, h2, h3, h4, fun o => ?_⟩
        exact (h5 o).trans (isSome_jsSet _ _ _ _ (by simp [h]))

theorem pointerUpLoop_log_kind : ∀ (hits : List Intersection) (m : InteractManager)
    (log : List Invocation), ∀ inv ∈ (pointerUpLoop m hits log).2,
    inv ∈ log ∨ inv.etype = .pointerup := by
  intro hits
  induction hits with
  | nil => intro m log inv hinv; exact Or.inl (by simpa [pointerUpLoop] using hinv)
  | cons hit rest ih =>
    intro m log inv hinv
    cases h : jsGet m.interactables hit.object with
    | none =>
      rw [pointerUpLoop_skip m hit rest log h] at hinv
      exact ih m log inv hinv
    | some it =>
      cases hs : (it.dispatchEvent (InteractEvent.new .pointerup hit.object hit)).ev.stopped with
      | true =>
        rw [pointerUpLoop_halt m hit rest log it h hs] at hinv
        rcases List.mem_append.mp hinv with hc | hc
        · exact Or.inl hc
        · exact Or.inr (dispatchEvent_log_mem _ _ inv hc).1
      | false =>
        rw [pointerUpLoop_step m hit rest log it h hs] at hinv
        rcases ih _ _ inv hinv with hc | hc
        · rcases List.mem_append.mp hc with hc' | hc'
          · exact Or.inl hc'
          · exact Or.inr (dispatchEvent_log_mem _ _ inv hc').1
        · exact Or.inr hc

theorem pointerMoveLoop_skip (dx dy : Int) (m : InteractManager) (hit : Intersection)
    (rest : List Intersection) (log : List Invocation)
    (h : jsGet m.interactables hit.object = none) :
    pointerMoveLoop dx dy m (hit :: rest) log = pointerMoveLoop dx dy m rest log := by
  simp [pointerMoveLoop, h]

theorem pointerMoveLoop_halt (dx dy : Int) (m : InteractManager) (hit : Intersection)
    (rest : List Intersection) (log : List Invocation) (it : Interactable)
    (h : jsGet m.interactables hit.object = some it)
    (hstop : (it.dispatchEvent
      { InteractEvent.new .pointermove hit.object hit with delta := ⟨dx, dy⟩ }).ev.stopped = true) :
    pointerMoveLoop dx dy m (hit :: rest) log =
      ({ m with interactables := jsSet m.interactables hit.object
                  (it.dispatchEvent { InteractEvent.new .pointermove hit.object hit with
                                      delta := ⟨dx, dy⟩ }).wrapper },
       log ++ (it.dispatchEvent { InteractEvent.new .pointermove hit.object hit with
                                  delta := ⟨dx, dy⟩ }).log) := by
  simp [pointerMoveLoop, h, hstop]

theorem pointerMoveLoop_step (dx dy : Int) (m : InteractManager) (hit : Intersection)
    (rest : List Intersection) (log : List Invocation) (it : Interactable)
    (h : jsGet m.interactables hit.object = some it)
    (hgo : (it.dispatchEvent
      { InteractEvent.new .pointermove hit.object hit with delta := ⟨dx, dy⟩ }).ev.stopped = false) :
    pointerMoveLoop dx dy m (hit :: rest) log =
      pointerMoveLoop dx dy
        { m with interactables := jsSet m.interactables hit.object
                   (it.dispatchEvent { InteractEvent.new .pointermove hit.object hit with
                                       delta := ⟨dx, dy⟩ }).wrapper }
        rest (log ++ (it.dispatchEvent { InteractEvent.new .pointermove hit.object hit with
                                         delta := ⟨dx, dy⟩ }).log) := by
  simp [pointerMoveLoop, h, hgo]

theorem pointerMoveLoop_state (dx dy : Int) : ∀ (hits : List Intersection)
    (m : InteractManager) (log : List Invocation),
    (pointerMoveLoop dx dy m hits log).1.hoveredObjects = m.hoveredObjects ∧
    (pointerMoveLoop dx dy m hits log).1.activeObject = m.activeObject ∧
    (pointerMoveLoop dx dy m hits log).1.dragObject = m.dragObject ∧
    (pointerMoveLoop dx dy m hits log).1.lastMousePosition = m.lastMousePosition ∧
    ∀ o, (jsGet (pointerMoveLoop dx dy m hits log).1.interactables o).isSome =
      (jsGet m.interactables o).isSome := by
  intro hits
  induction hits with
  | nil => intro m log; simp [pointerMoveLoop]
  | cons hit rest ih =>
    intro m log
    cases h : jsGet m.interactables hit.object with
    | none => simpa [pointerMoveLoop_skip dx dy m hit rest log h] using ih m log
    | some it =>
      cases hs : (it.dispatchEvent
          { InteractEvent.new .pointermove hit.object hit with
            delta := ⟨dx, dy⟩ }).ev.stopped with
      | true =>
        rw [pointerMoveLoop_halt dx dy m hit rest log it h hs]
        refine ⟨rfl, rfl, rfl, rfl, fun o => ?_⟩
        exact isSome_jsSet _ _ _ _ (by simp [h])
      | false =>
        rw [pointerMoveLoop_step dx dy m hit rest log it h hs]
        obtain ⟨h1, h2, h3, h4, h5⟩ := ih _ _
        refine ⟨h1, h2, h3, h4, fun o => ?_⟩
        exact (h5 o).trans (isSome_jsSet _ _ _ _ (by simp [h]))

theorem pointerMoveLoop_log_kind (dx dy : Int) : ∀ (hits : List Intersection)
    (m : InteractManager) (log : List Invocation),
    ∀ inv ∈ (pointerMoveLoop dx dy m hits log).2,
    inv ∈ log ∨ inv.etype = .pointermove := by
  intro hits
  induction hits with
  | nil => intro m log inv hinv; exact Or.inl (by simpa [pointerMoveLoop] using hinv)
  | cons hit rest ih =>
    intro m log inv hinv
    cases h : jsGet m.interactables hit.object with
    | none =>
      rw [pointerMoveLoop_skip dx dy m hit rest log h] at hinv
      exact ih m log inv hinv
    | some it =>
      cases hs : (it.dispatchEvent
          { InteractEvent.new .pointermove hit.object hit with
            delta := ⟨dx, dy⟩ }).ev.stopped with
      | true =>
        rw [pointerMoveLoop_halt dx dy m hit rest log it h hs] at hinv
        rcases List.mem_append.mp hinv with hc | hc
        · exact Or.inl hc
        · exact Or.inr (dispatchEvent_log_mem _ _ inv hc).1
      | false =>
        rw [pointerMoveLoop_step dx dy m hit rest log it h hs] at hinv
        rcases ih _ _ inv hinv with hc | hc
        · rcases List.mem_append.mp hc with hc' | hc'
          · exact Or.inl hc'
          · exact Or.inr (dispatchEvent_log_mem _ _ inv hc').1
        · exact Or.inr hc

theorem enterLoop_skip (m : InteractManager) (hit : Intersection)
    (rest : List Intersection) (log : List Invocation)
    (h : jsGet m.interactables hit.object = none) :
    enterLoop m (hit :: rest) log = enterLoop m rest log := by
  simp [enterLoop, h]

theorem enterLoop_skipHovered (m : InteractManager) (hit : Intersection)
    (rest : List Intersection) (log : List Invocation) (it : Interactable)
    (h : jsGet m.interactables hit.object = some it)
    (hmem : hit.object ∈ m.hoveredObjects) :
    enterLoop m (hit :: rest) log = enterLoop m rest log := by
  simp [enterLoop, h, hmem]

theorem enterLoop_halt (m : InteractManager) (hit : Intersection)
    (rest : List Intersection) (log : List Invocation) (it : Interactable)
    (h : jsGet m.interactables hit.object = some it)
    (hmem : hit.object ∉ m.hoveredObjects)
    (hstop : ((it.dispatchEvent (InteractEvent.new .pointerenter hit.object hit)).handled &&
      (it.dispatchEvent (InteractEvent.new .pointerenter hit.object hit)).ev.stopped) = true) :
    enterLoop m (hit :: rest) log =
      ({ m with hoveredObjects := m.hoveredObjects ++ [hit.object],
                interactables := jsSet m.interactables hit.object
                  (it.dispatchEvent (InteractEvent.new .pointerenter hit.object hit)).wrapper },
       log ++ (it.dispatchEvent (InteractEvent.new .pointerenter hit.object hit)).log) := by
  simp [enterLoop, h, hmem, hstop]

theorem enterLoop_step (m : InteractManager) (hit : Intersection)
    (rest : List Intersection) (log : List Invocation) (it : Interactable)
    (h : jsGet m.interactables hit.object = some it)
    (hmem : hit.object ∉ m.hoveredObjects)
    (hgo : ((it.dispatchEvent (InteractEvent.new .pointerenter hit.object hit)).handled &&
      (it.dispatchEvent (InteractEvent.new .pointerenter hit.object hit)).ev.stopped) = false) :
    enterLoop m (hit :: rest) log =
      enterLoop
        { m with hoveredObjects := m.hoveredObjects ++ [hit.object],
                 interactables := jsSet m.interactables hit.object
                   (it.dispatchEvent (InteractEvent.new .pointerenter hit.object hit)).wrapper }
        rest (log ++ (it.dispatchEvent (InteractEvent.new .pointerenter hit.object hit)).log) := by
  simp [enterLoop, h, hmem, hgo]

theorem enterLoop_state : ∀ (hits : List Intersection) (m : InteractManager)
    (log : List Invocation),
    (enterLoop m hits log).1.activeObject = m.activeObject ∧
    (enterLoop m hits log).1.dragObject = m.dragObject ∧
    (enterLoop m hits log).1.lastMousePosition = m.lastMousePosition ∧
    (∀ o, (jsGet (enterLoop m hits log).1.interactables o).isSome =
      (jsGet m.interactables o).isSome) ∧
    ∀ x ∈ m.hoveredObjects, x ∈ (enterLoop m hits log).1.hoveredObjects := by
  intro hits
  induction hits with
  | nil => intro m log; simp [enterLoop]
  | cons hit rest ih =>
    intro m log
    cases h : jsGet m.interactables hit.object with
    | none => simpa [enterLoop_skip m hit rest log h] using ih m log
    | some it =>
      by_cases hmem : hit.object ∈ m.hoveredObjects
      · simpa [enterLoop_skipHovered m hit rest log it h hmem] using ih m log
      · cases hb : ((it.dispatchEvent (InteractEvent.new .pointerenter hit.object hit)).handled &&
            (it.dispatchEvent (InteractEvent.new .pointerenter hit.object hit)).ev.stopped) with
        | true =>
          rw [enterLoop_halt m hit rest log it h hmem hb]
          refine ⟨rfl, rfl, rfl, fun o => isSome_jsSet _ _ _ _ (by simp [h]), fun x hx => ?_⟩
          exact List.mem_append_left _ hx
        | false =>
          rw [enterLoop_step m hit rest log it h hmem hb]
          obtain ⟨h1, h2, h3, h4, h5⟩ := ih _ _
          refine ⟨h1, h2, h3, fun o => (h4 o).trans (isSome_jsSet _ _ _ _ (by simp [h])),
            fun x hx => h5 x (List.mem_append_left _ hx)⟩

theorem enterLoop_log_kind : ∀ (hits : List Intersection) (m : InteractManager)
    (log : List Invocation), ∀ inv ∈ (enterLoop m hits log).2,
    inv ∈ log ∨ inv.etype = .pointerenter := by
  intro hits
  induction hits with
  | nil => intro m log inv hinv; exact Or.inl (by simpa [enterLoop] using hinv)
  | cons hit rest ih =>
    intro m log inv hinv
    cases h : jsGet m.interactables hit.object with
    | none =>
      rw [enterLoop_skip m hit rest log h] at hinv
      exact ih m log inv hinv
    | some it =>
      by_cases hmem : hit.object ∈ m.hoveredObjects
      · rw [enterLoop_skipHovered m hit rest log it h hmem] at hinv
        exact ih m log inv hinv
      · cases hb : ((it.dispatchEvent (InteractEvent.new .pointerenter hit.object hit)).handled &&
            (it.dispatchEvent (InteractEvent.new .pointerenter hit.object hit)).ev.stopped) with
        | true =>
          rw [enterLoop_halt m hit rest log it h hmem hb] at hinv
          rcases List.mem_append.mp hinv with hc | hc
          · exact Or.inl hc
          · exact Or.inr (dispatchEvent_log_mem _ _ inv hc).1
        | false =>
          rw [enterLoop_step m hit rest log it h hmem hb] at hinv
          rcases ih _ _ inv hinv with hc | hc
          · rcases List.mem_append.mp hc with hc' | hc'
            · exact Or.inl hc'
            · exact Or.inr (dispatchEvent_log_mem _ _ inv hc').1
          · exact Or.inr hc

theorem enterLoop_log_target : ∀ (hits : List Intersection) (m : InteractManager)
    (log : List Invocation) (obj : Nat), obj ∈ m.hoveredObjects →
    ∀ inv ∈ (enterLoop m hits log).2, inv ∈ log ∨ inv.target ≠ obj := by
  intro hits
  induction hits with
  | nil => intro m log obj _ inv hinv; exact Or.inl (by simpa [enterLoop] using hinv)
  | cons hit rest ih =>
    intro m log obj hobj inv hinv
    cases h : jsGet m.interactables hit.object with
    | none =>
      rw [enterLoop_skip m hit rest log h] at hinv
      exact ih m log obj hobj inv hinv
    | some it =>
      by_cases hmem : hit.object ∈ m.hoveredObjects
      · rw [enterLoop_skipHovered m hit rest log it h hmem] at hinv
        exact ih m log obj hobj inv hinv
      · have hne : hit.object ≠ obj := fun he => hmem (he ▸ hobj)
        cases hb : ((it.dispatchEvent (InteractEvent.new .pointerenter hit.object hit)).handled &&
            (it.dispatchEvent (InteractEvent.new .pointerenter hit.object hit)).ev.stopped) with
        | true =>
          rw [enterLoop_halt m hit rest log it h hmem hb] at hinv
          rcases List.mem_append.mp hinv with hc | hc
          · exact Or.inl hc
          · right
            rw [(dispatchEvent_log_mem _ _ inv hc).2]
            exact hne
        | false =>
          rw [enterLoop_step m hit rest log it h hmem hb] at hinv
          have hobj' : obj ∈ m.hoveredObjects ++ [hit.object] := List.mem_append_left _ hobj
          rcases ih _ _ obj hobj' inv hinv with hc | hc
          · rcases List.mem_append.mp hc with hc' | hc'
            · exact Or.inl hc'
            · right
              rw [(dispatchEvent_log_mem _ _ inv hc').2]
              exact hne
          · exact Or.inr hc

theorem leaveLoop_skipHit (hits : List Intersection) (obj : Nat) (rest : List Nat)
    (m : InteractManager) (log : List Invocation)
    (hc : (hits.map Intersection.object).contains obj = true) :
    leaveLoop hits (obj :: rest) m log = leaveLoop hits rest m log := by
  have hmem : obj ∈ hits.map Intersection.object := by simpa using hc
  simp [leaveLoop, hmem]

theorem leaveLoop_state (hits : List Intersection) : ∀ (objs : List Nat)
    (m : InteractManager) (log : List Invocation),
    (leaveLoop hits objs m log).1.activeObject = m.activeObject ∧
    (leaveLoop hits objs m log).1.dragObject = m.dragObject ∧
    (leaveLoop hits objs m log).1.lastMousePosition = m.lastMousePosition ∧
    ∀ o, (jsGet (leaveLoop hits objs m log).1.interactables o).isSome =
      (jsGet m.interactables o).isSome := by
  intro objs
  induction objs with
  | nil => intro m log; simp [leaveLoop]
  | cons obj rest ih =>
    intro m log
    cases hc : (hits.map Intersection.object).contains obj with
    | true => simpa [leaveLoop_skipHit hits obj rest m log hc] using ih m log
    | false =>
      simp only [leaveLoop, hc, Bool.false_eq_true, if_false]
      cases h : jsGet ({ m with
          hoveredObjects := m.hoveredObjects.filter (fun o => o ≠ obj) } :
            InteractManager).interactables obj with
      | none =>
        simpa [h] using ih _ log
      | some it =>
        simp only [h]
        obtain ⟨h1, h2, h3, h4⟩ := ih _ _
        refine ⟨h1, h2, h3, fun o => (h4 o).trans (isSome_jsSet _ _ _ _ ?_)⟩
        simp only at h
        simp [h]

theorem leaveLoop_log_kind (hits : List Intersection) : ∀ (objs : List Nat)
    (m : InteractManager) (log : List Invocation),
    ∀ inv ∈ (leaveLoop hits objs m log).2, inv ∈ log ∨ inv.etype = .pointerleave := by
  intro objs
  induction objs with
  | nil => intro m log inv hinv; exact Or.inl (by simpa [leaveLoop] using hinv)
  | cons obj rest ih =>
    intro m log inv hinv
    cases hc : (hits.map Intersection.object).contains obj with
    | true =>
      rw [leaveLoop_skipHit hits obj rest m log hc] at hinv
      exact ih m log inv hinv
    | false =>
      simp only [leaveLoop, hc, Bool.false_eq_true, if_false] at hinv
      cases h : jsGet ({ m with
          hoveredObjects := m.hoveredObjects.filter (fun o => o ≠ obj) } :
            InteractManager).interactables obj with
      | none =>
        rw [h] at hinv
        exact ih _ log inv hinv
      | some it =>
        rw [h] at hinv
        rcases ih _ _ inv hinv with hcase | hcase
        · rcases List.mem_append.mp hcase with hc' | hc'
          · exact Or.inl hc'
          · exact Or.inr (dispatchEvent_log_mem _ _ inv hc').1
        · exact Or.inr hcase

theorem leaveLoop_log_target (hits : List Intersection) : ∀ (objs : List Nat)
    (m : InteractManager) (log : List Invocation) (obj : Nat),
    obj ∈ hits.map Intersection.object →
    ∀ inv ∈ (leaveLoop hits objs m log).2, inv ∈ log ∨ inv.target ≠ obj := by
  intro objs
  induction objs with
  | nil => intro m log obj _ inv hinv; exact Or.inl (by simpa [leaveLoop] using hinv)
  | cons o rest ih =>
    intro m log obj hobj inv hinv
    cases hc : (hits.map Intersection.object).contains o with
    | true =>
      rw [leaveLoop_skipHit hits o rest m log hc] at hinv
      exact ih m log obj hobj inv hinv
    | false =>
      have hno : o ∉ hits.map Intersection.object := by simpa using hc
      have hne : o ≠ obj := fun he => hno (he ▸ hobj)
      simp only [leaveLoop, hc, Bool.false_eq_true, if_false] at hinv
      cases h : jsGet ({ m with
          hoveredObjects := m.hoveredObjects.filter (fun o' => o' ≠ o) } :
            InteractManager).interactables o with
      | none =>
        rw [h] at hinv
        exact ih _ log obj hobj inv hinv
      | some it =>
        rw [h] at hinv
        rcases ih _ _ obj hobj inv hinv with hcase | hcase
        · rcases List.mem_append.mp hcase with hc' | hc'
          · exact Or.inl hc'
          · right
            rw [(dispatchEvent_log_mem _ _ inv hc').2]
            exact hne
        · exact Or.inr hcase

/-! Decomposed forms of the entry points and derived facts. -/

theorem onClick_eq (m : InteractManager) (cx cy : Int) (hits : List Intersection) :
    m.onClick cx cy hits =
      clickLoop { m with lastMousePosition := ⟨cx, cy⟩ } hits [] := rfl

theorem onPointerDown_eq (m : InteractManager) (cx cy : Int) (hits : List Intersection) :
    m.onPointerDown cx cy hits =
      pointerDownLoop { m with lastMousePosition := ⟨cx, cy⟩ } hits [] := rfl

theorem onPointerUp_eq (m : InteractManager) (cx cy : Int) (hits : List Intersection) :
    m.onPointerUp cx cy hits =
      (let p := pointerUpLoop
        { m with lastMousePosition := ⟨cx, cy⟩, dragObject := none } hits []
       ({ p.1 with activeObject := none }, p.2)) := rfl

theorem processRaycast_eq (m : InteractManager) (hits : List Intersection) :
    m.processRaycast hits =
      ((leaveLoop hits (enterLoop m hits []).1.hoveredObjects (enterLoop m hits []).1 []).1,
       (enterLoop m hits []).2 ++
         (leaveLoop hits (enterLoop m hits []).1.hoveredObjects (enterLoop m hits []).1 []).2) :=
  rfl

/-- The drag phase of `onPointerMove`: when a drag target is set and still
registered, dispatch one `drag` event to it carrying the sample's delta. -/
def dragPhase (m : InteractManager) (dx dy : Int) (hits : List Intersection) :
    InteractManager × List Invocation :=
  match m.dragObject with
  | none => (m, [])
  | some dobj =>
    match jsGet m.interactables dobj with
    | none => (m, [])
    | some it =>
      let e := InteractEvent.new .drag dobj (getIntersection hits dobj)
      let r := it.dispatchEvent { e with delta := ⟨dx, dy⟩ }
      ({ m with interactables := jsSet m.interactables dobj r.wrapper }, r.log)

theorem onPointerMove_eq (m : InteractManager) (cx cy : Int) (hits : List Intersection) :
    m.onPointerMove cx cy hits =
      (let dx := cx - m.lastMousePosition.x
       let dy := cy - m.lastMousePosition.y
       let q := dragPhase { m with lastMousePosition := ⟨cx, cy⟩ } dx dy hits
       let mv := pointerMoveLoop dx dy q.1 hits []
       let pr := mv.1.processRaycast hits
       (pr.1, q.2 ++ mv.2 ++ pr.2)) := rfl

theorem processRaycast_state (m : InteractManager) (hits : List Intersection) :
    (m.processRaycast hits).1.activeObject = m.activeObject ∧
    (m.processRaycast hits).1.dragObject = m.dragObject ∧
    (m.processRaycast hits).1.lastMousePosition = m.lastMousePosition ∧
    ∀ o, (jsGet (m.processRaycast hits).1.interactables o).isSome =
      (jsGet m.interactables o).isSome := by
  rw [processRaycast_eq]
  obtain ⟨e1, e2, e3, e4, _⟩ := enterLoop_state hits m []
  obtain ⟨l1, l2, l3, l4⟩ :=
    leaveLoop_state hits (enterLoop m hits []).1.hoveredObjects (enterLoop m hits []).1 []
  exact ⟨l1.trans e1, l2.trans e2, l3.trans e3, fun o => (l4 o).trans (e4 o)⟩

theorem processRaycast_log_kind (m : InteractManager) (hits : List Intersection) :
    ∀ inv ∈ (m.processRaycast hits).2,
      inv.etype = .pointerenter ∨ inv.etype = .pointerleave := by
  rw [processRaycast_eq]
  intro inv hinv
  rcases List.mem_append.mp hinv with hc | hc
  · rcases enterLoop_log_kind hits m [] inv hc with hc' | hc'
    · simp at hc'
    · exact Or.inl hc'
  · rcases leaveLoop_log_kind hits (enterLoop m hits []).1.hoveredObjects
      (enterLoop m hits []).1 [] inv hc with hc' | hc'
    · simp at hc'
    · exact Or.inr hc'

theorem processRaycast_target (m : InteractManager) (hits : List Intersection)
    (obj : Nat) (hhov : obj ∈ m.hoveredObjects)
    (hhit : obj ∈ hits.map Intersection.object) :
    ∀ inv ∈ (m.processRaycast hits).2, inv.target ≠ obj := by
  rw [processRaycast_eq]
  intro inv hinv
  rcases List.mem_append.mp hinv with hc | hc
  · rcases enterLoop_log_target hits m [] obj hhov inv hc with hc' | hc'
    · simp at hc'
    · exact hc'
  · rcases leaveLoop_log_target hits (enterLoop m hits []).1.hoveredObjects
      (enterLoop m hits []).1 [] obj hhit inv hc with hc' | hc'
    · simp at hc'
    · exact hc'

theorem dragPhase_state (m : InteractManager) (dx dy : Int) (hits : List Intersection) :
    (dragPhase m dx dy hits).1.hoveredObjects = m.hoveredObjects ∧
    (dragPhase m dx dy hits).1.activeObject = m.activeObject ∧
    (dragPhase m dx dy hits).1.dragObject = m.dragObject ∧
    (dragPhase m dx dy hits).1.lastMousePosition = m.lastMousePosition ∧
    ∀ o, (jsGet (dragPhase m dx dy hits).1.interactables o).isSome =
      (jsGet m.interactables o).isSome := by
  unfold dragPhase
  cases hdo : m.dragObject with
  | none => simp [hdo]
  | some dobj =>
    cases h : jsGet m.interactables dobj with
    | none => simp [h, hdo]
    | some it =>
      simp only [h]
      refine ⟨trivial, trivial, trivial, trivial, fun o => isSome_jsSet _ _ _ _ (by simp [h])⟩

theorem dragPhase_log_kind (m : InteractManager) (dx dy : Int) (hits : List Intersection) :
    ∀ inv ∈ (dragPhase m dx dy hits).2, inv.etype = .drag := by
  unfold dragPhase
  cases hdo : m.dragObject with
  | none => simp
  | some dobj =>
    cases h : jsGet m.interactables dobj with
    | none => simp [h]
    | some it =>
      simp only [h]
      intro inv hinv
      exact (dispatchEvent_log_mem _ _ inv (by simpa using hinv)).1

theorem dragPhase_none (m : InteractManager) (dx dy : Int) (hits : List Intersection)
    (h : m.dragObject = none) : dragPhase m dx dy hits = (m, []) := by
  simp [dragPhase, h]

theorem onPointerMove_no_drag (m : InteractManager) (cx cy : Int)
    (hits : List Intersection) (h : m.dragObject = none) :
    ∀ inv ∈ (m.onPointerMove cx cy hits).2, inv.etype ≠ .drag := by
  rw [onPointerMove_eq]
  have hd : ({ m with lastMousePosition := (⟨cx, cy⟩ : Vec2) } :
      InteractManager).dragObject = none := h
  simp only [dragPhase_none _ _ _ _ hd, List.nil_append]
  intro inv hinv
  rcases List.mem_append.mp hinv with hc | hc
  · rcases pointerMoveLoop_log_kind _ _ hits _ [] inv hc with hc' | hc'
    · simp at hc'
    · simp [hc']
  · rcases processRaycast_log_kind _ hits inv hc with hc' | hc' <;> simp [hc']

/-! The referential-integrity invariant on the coordinator state. -/

/-- A target reference is sound when it is absent or names a registered
identity. -/
def refOk (m : InteractManager) (t : Option Nat) : Bool :=
  match t with
  | none => true
  | some d => (jsGet m.interactables d).isSome

/-- Invariant: `dragObject` and `activeObject`, when present, reference an
identity still present in the wrapper registry. -/
def GoodRefs (m : InteractManager) : Prop :=
  refOk m m.dragObject = true ∧ refOk m m.activeObject = true

theorem refOk_of (m m' : InteractManager) (t : Option Nat)
    (hk : ∀ o, (jsGet m'.interactables o).isSome = (jsGet m.interactables o).isSome)
    (h : refOk m t = true) : refOk m' t = true := by
  cases t with
  | none => rfl
  | some d => simpa [refOk, hk d] using h

theorem goodrefs_of (m m' : InteractManager)
    (hd : m'.dragObject = m.dragObject) (ha : m'.activeObject = m.activeObject)
    (hk : ∀ o, (jsGet m'.interactables o).isSome = (jsGet m.interactables o).isSome)
    (h : GoodRefs m) : GoodRefs m' := by
  refine ⟨?_, ?_⟩
  · rw [hd]
    exact refOk_of m m' m.dragObject hk h.1
  · rw [ha]
    exact refOk_of m m' m.activeObject hk h.2

theorem remove_eq (m : InteractManager) (obj : Nat) :
    m.remove obj =
      { interactables := jsDelete m.interactables obj,
        hoveredObjects := m.hoveredObjects.filter (fun o => o ≠ obj),
        activeObject := if m.activeObject = some obj then none else m.activeObject,
        dragObject := if m.dragObject = some obj then none else m.dragObject,
        lastMousePosition := m.lastMousePosition } := by
  unfold InteractManager.remove
  by_cases ha : m.activeObject = some obj <;> by_cases hd : m.dragObject = some obj <;>
    simp [ha, hd]

theorem refOk_mono (m m' : InteractManager) (t : Option Nat)
    (hk : ∀ o, (jsGet m.interactables o).isSome = true →
      (jsGet m'.interactables o).isSome = true)
    (h : refOk m t = true) : refOk m' t = true := by
  cases t with
  | none => rfl
  | some d => exact hk d h

theorem goodrefs_mono (m m' : InteractManager)
    (hd : m'.dragObject = m.dragObject) (ha : m'.activeObject = m.activeObject)
    (hk : ∀ o, (jsGet m.interactables o).isSome = true →
      (jsGet m'.interactables o).isSome = true)
    (h : GoodRefs m) : GoodRefs m' := by
  refine ⟨?_, ?_⟩
  · rw [hd]
    exact refOk_mono m m' m.dragObject hk h.1
  · rw [ha]
    exact refOk_mono m m' m.activeObject hk h.2

theorem add_goodrefs (m : InteractManager) (obj : Nat) (h : GoodRefs m) :
    GoodRefs (m.add obj).1 := by
  unfold InteractManager.add
  cases hg : jsGet m.interactables obj with
  | some it => exact h
  | none =>
    refine goodrefs_mono m _ rfl rfl (fun o ho => ?_) h
    simp only [jsGet_jsSet]
    by_cases hobj : o = obj <;> simp [hobj, ho]

theorem remove_goodrefs (m : InteractManager) (obj : Nat) (h : GoodRefs m) :
    GoodRefs (m.remove obj) := by
  rw [remove_eq]
  refine ⟨?_, ?_⟩
  · by_cases hd : m.dragObject = some obj
    · simp [refOk, hd]
    · simp only [refOk, hd, if_neg, not_false_iff]
      cases hdo : m.dragObject with
      | none => rfl
      | some d =>
        have hne : d ≠ obj := by
          intro he
          exact hd (by rw [hdo, he])
        have h1 := h.1
        rw [hdo] at h1
        simpa [refOk, jsGet_jsDelete_ne m.interactables obj d hne] using h1
  · by_cases ha : m.activeObject = some obj
    · simp [refOk, ha]
    · simp only [refOk, ha, if_neg, not_false_iff]
      cases hao : m.activeObject with
      | none => rfl
      | some a =>
        have hne : a ≠ obj := by
          intro he
          exact ha (by rw [hao, he])
        have h2 := h.2
        rw [hao] at h2
        simpa [refOk, jsGet_jsDelete_ne m.interactables obj a hne] using h2

theorem onClick_goodrefs (m : InteractManager) (cx cy : Int)
    (hits : List Intersection) (h : GoodRefs m) :
    GoodRefs (m.onClick cx cy hits).1 := by
  rw [onClick_eq]
  obtain ⟨_, h2, h3, _, h5⟩ :=
    clickLoop_state hits { m with lastMousePosition := ⟨cx, cy⟩ } []
  exact goodrefs_of m _ h3 h2 h5 h

theorem pointerDownLoop_goodrefs : ∀ (hits : List Intersection) (m : InteractManager)
    (log : List Invocation), GoodRefs m → GoodRefs (pointerDownLoop m hits log).1 := by
  intro hits
  induction hits with
  | nil => intro m log h; simpa [pointerDownLoop] using h
  | cons hit rest ih =>
    intro m log h
    cases hg : jsGet m.interactables hit.object with
    | none =>
      rw [pointerDownLoop_skip m hit rest log hg]
      exact ih m log h
    | some it =>
      have hgood : GoodRefs
          { m with interactables := jsSet m.interactables hit.object
                     (it.dispatchEvent (InteractEvent.new .pointerdown hit.object hit)).wrapper,
                   dragObject := some hit.object,
                   activeObject := some hit.object } := by
        refine ⟨?_, ?_⟩ <;>
        · simp only [refOk, jsGet_jsSet]
          simp
      cases hs : (it.dispatchEvent (InteractEvent.new .pointerdown hit.object hit)).ev.stopped with
      | true =>
        rw [pointerDownLoop_halt m hit rest log it hg hs]
        exact hgood
      | false =>
        rw [pointerDownLoop_step m hit rest log it hg hs]
        exact ih _ _ hgood

theorem onPointerDown_goodrefs (m : InteractManager) (cx cy : Int)
    (hits : List Intersection) (h : GoodRefs m) :
    GoodRefs (m.onPointerDown cx cy hits).1 := by
  rw [onPointerDown_eq]
  refine pointerDownLoop_goodrefs hits _ [] ?_
  exact goodrefs_of m _ rfl rfl (fun o => rfl) h

theorem onPointerUp_state (m : InteractManager) (cx cy : Int)
    (hits : List Intersection) :
    (m.onPointerUp cx cy hits).1.dragObject = none ∧
    (m.onPointerUp cx cy hits).1.activeObject = none := by
  rw [onPointerUp_eq]
  obtain ⟨_, _, h3, _, _⟩ :=
    pointerUpLoop_state hits
      { m with lastMousePosition := ⟨cx, cy⟩, dragObject := none } []
  exact ⟨h3, rfl⟩

theorem onPointerUp_goodrefs (m : InteractManager) (cx cy : Int)
    (hits : List Intersection) :
    GoodRefs (m.onPointerUp cx cy hits).1 := by
  obtain ⟨h1, h2⟩ := onPointerUp_state m cx cy hits
  constructor
  · rw [h1]; rfl
  · rw [h2]; rfl

theorem onPointerMove_goodrefs (m : InteractManager) (cx cy : Int)
    (hits : List Intersection) (h : GoodRefs m) :
    GoodRefs (m.onPointerMove cx cy hits).1 := by
  rw [onPointerMove_eq]
  simp only []
  have hm1 : GoodRefs ({ m with lastMousePosition := (⟨cx, cy⟩ : Vec2) } :
      InteractManager) := goodrefs_of m _ rfl rfl (fun o => rfl) h
  obtain ⟨_, d2, d3, _, d5⟩ :=
    dragPhase_state { m with lastMousePosition := ⟨cx, cy⟩ }
      (cx - m.lastMousePosition.x) (cy - m.lastMousePosition.y) hits
  have hq := goodrefs_of _ _ d3 d2 d5 hm1
  obtain ⟨_, m2, m3, _, m5⟩ :=
    pointerMoveLoop_state (cx - m.lastMousePosition.x) (cy - m.lastMousePosition.y) hits
      (dragPhase { m with lastMousePosition := ⟨cx, cy⟩ }
        (cx - m.lastMousePosition.x) (cy - m.lastMousePosition.y) hits).1 []
  have hmv := goodrefs_of _ _ m3 m2 m5 hq
  obtain ⟨p1, p2, _, p4⟩ :=
    processRaycast_state
      (pointerMoveLoop (cx - m.lastMousePosition.x) (cy - m.lastMousePosition.y)
        (dragPhase { m with lastMousePosition := ⟨cx, cy⟩ }
          (cx - m.lastMousePosition.x) (cy - m.lastMousePosition.y) hits).1 hits []).1 hits
  exact goodrefs_of _ _ p2 p1 p4 hmv

theorem jsGet_mem {α β : Type} [DecidableEq α] :
    ∀ (l : List (α × β)) (k : α) (v : β), jsGet l k = some v → (k, v) ∈ l := by
  intro l
  induction l with
  | nil => intro k v h; simp [jsGet] at h
  | cons p rest ih =>
    intro k v h
    obtain ⟨pk, pv⟩ := p
    by_cases hk : pk = k
    · subst hk
      simp only [jsGet, if_pos rfl] at h
      rw [Option.some.inj h]
      exact List.mem_cons_self _ _
    · simp only [jsGet, hk, if_false] at h
      exact List.mem_cons_of_mem _ (ih k v h)

theorem mem_jsSet {α β : Type} [DecidableEq α] :
    ∀ (l : List (α × β)) (k : α) (v : β) (p : α × β),
      p ∈ jsSet l k v → p ∈ l ∨ p = (k, v) := by
  intro l
  induction l with
  | nil =>
    intro k v p h
    simp [jsSet] at h
    exact Or.inr h
  | cons q rest ih =>
    intro k v p h
    obtain ⟨qk, qv⟩ := q
    by_cases hk : qk = k
    · subst hk
      simp only [jsSet, if_pos rfl] at h
      rcases List.mem_cons.mp h with h' | h'
      · exact Or.inr h'
      · exact Or.inl (List.mem_cons_of_mem _ h')
    · simp only [jsSet, hk, if_false] at h
      rcases List.mem_cons.mp h with h' | h'
      · exact Or.inl (h' ▸ List.mem_cons_self _ _)
      · rcases ih k v p h' with h2 | h2
        · exact Or.inl (List.mem_cons_of_mem _ h2)
        · exact Or.inr h2

/-- No registered wrapper has `pointerdown` handlers, so no `pointerdown`
dispatch can set the stop flag. -/
def NoDownHandlers (m : InteractManager) : Prop :=
  ∀ p ∈ m.interactables, jsGet (Prod.snd p).eventHandlers EKind.pointerdown = none

theorem pointerDownLoop_last : ∀ (hits : List Intersection) (m : InteractManager)
    (log : List Invocation), NoDownHandlers m →
    (∀ hit ∈ hits, (jsGet m.interactables hit.object).isSome = true) →
    ∀ (hne : hits ≠ []),
    (pointerDownLoop m hits log).1.dragObject = some (hits.getLast hne).object ∧
    (pointerDownLoop m hits log).1.activeObject = some (hits.getLast hne).object := by
  intro hits
  induction hits with
  | nil => intro m log _ _ hne; exact absurd rfl hne
  | cons hit rest ih =>
    intro m log hnd hreg hne
    have hsome : (jsGet m.interactables hit.object).isSome = true :=
      hreg hit (List.mem_cons_self hit rest)
    obtain ⟨it, hg⟩ := Option.isSome_iff_exists.mp hsome
    have hdn : jsGet it.eventHandlers EKind.pointerdown = none :=
      hnd (hit.object, it) (jsGet_mem m.interactables hit.object it hg)
    have hdisp : it.dispatchEvent (InteractEvent.new .pointerdown hit.object hit) =
        ⟨it, InteractEvent.new .pointerdown hit.object hit, false, []⟩ :=
      dispatchEvent_none it _ hdn
    have hstop : (it.dispatchEvent (InteractEvent.new .pointerdown hit.object hit)).ev.stopped
        = false := by
      rw [hdisp]
      rfl
    rw [pointerDownLoop_step m hit rest log it hg hstop]
    rw [hdisp]
    cases rest with
    | nil =>
      simp [pointerDownLoop]
    | cons hit2 rest2 =>
      have hrest : (hit2 :: rest2 : List Intersection) ≠ [] := by simp
      have hlast : ((hit :: hit2 :: rest2 : List Intersection).getLast hne) =
          ((hit2 :: rest2 : List Intersection).getLast hrest) := by
        simp [List.getLast_cons]
      rw [hlast]
      refine ih _ _ ?_ ?_ hrest
      · intro p hp
        rcases mem_jsSet m.interactables hit.object it p hp with hmem | heq
        · exact hnd p hmem
        · rw [heq]
          exact hdn
      · intro h2 hmem
        simp only [jsGet_jsSet]
        by_cases ho : h2.object = hit.object
        · simp [ho]
        · rw [if_neg ho]
          exact hreg h2 (List.mem_cons_of_mem hit hmem)

theorem count_removeFirst (hs : List Handler) (hid : Nat) :
    ((removeFirst hs hid).map Handler.id).count hid =
      ((hs.map Handler.id).count hid) - 1 := by
  induction hs with
  | nil => simp [removeFirst]
  | cons h rest ih =>
    by_cases hh : h.id = hid
    · simp [removeFirst, hh, List.count_cons]
    · simp only [removeFirst, hh, if_neg, not_false_iff, List.map_cons, List.count_cons]
      rw [ih]
      simp [hh]

theorem not_mem_removeFirst (hs : List Handler) (hid : Nat)
    (hcount : ((hs.map Handler.id).count hid) ≤ 1) :
    hid ∉ (removeFirst hs hid).map Handler.id := by
  have h0 : ((removeFirst hs hid).map Handler.id).count hid = 0 := by
    rw [count_removeFirst]
    omega
  exact List.count_eq_zero.mp h0

/-! Concrete states used in the claim scenarios. -/

/-- A click handler (id 10) that calls `stopPropagation`. -/
def handlerNearStop : Handler := ⟨10, [.stop]⟩

/-- A passive click handler (id 20). -/
def handlerFarPassive : Handler := ⟨20, []⟩

/-- Wrapper of the near object (identity 0) with the stopping click handler. -/
def wrapNear : Interactable := ⟨0, [(.click, [handlerNearStop])]⟩

/-- Wrapper of the far object (identity 1) with the passive click handler. -/
def wrapFar : Interactable := ⟨1, [(.click, [handlerFarPassive])]⟩

/-- Manager with the near and far objects registered. -/
def mgrNearFar : InteractManager := ⟨[(0, wrapNear), (1, wrapFar)], [], none, none, ⟨0, 0⟩⟩

/-- Manager with two registered objects carrying no handlers at all. -/
def mgrTwoPlain : InteractManager :=
  ⟨[(0, ⟨0, []⟩), (1, ⟨1, []⟩)], [], none, none, ⟨0, 0⟩⟩

/-- A click handler (id 1) whose body unregisters the handler itself. -/
def selfRemover : Handler := ⟨1, [.offOne .click 1]⟩

/-- A passive click handler (id 2). -/
def passiveTwo : Handler := ⟨2, []⟩

/-- A wrapper whose click sequence is the self-removing handler followed by
a passive sibling. -/
def wrapSelfPair : Interactable := ⟨0, [(.click, [selfRemover, passiveTwo])]⟩

/-! Claim theorems. -/

/-- C1: every hit-loop entry point (click, pointerdown, pointerup,
pointermove) visits the ordered hit list front to back, silently skips hits
whose object has no registered wrapper, dispatches a freshly constructed
event through the registered object's registry, and halts as soon as the
dispatched event's stop flag is set, so that no farther hit can influence
the result; concretely, over hit list [near, far] where the near click
handler stops propagation, only the near handler is invoked. -/
theorem C1_dispatch_loop (m : InteractManager) (hit : Intersection)
    (rest rest2 : List Intersection) (log : List Invocation) :
    (jsGet m.interactables hit.object = none →
      clickLoop m (hit :: rest) log = clickLoop m rest log ∧
      pointerDownLoop m (hit :: rest) log = pointerDownLoop m rest log ∧
      pointerUpLoop m (hit :: rest) log = pointerUpLoop m rest log ∧
      ∀ dx dy : Int, pointerMoveLoop dx dy m (hit :: rest) log =
        pointerMoveLoop dx dy m rest log) ∧
    (∀ it, jsGet m.interactables hit.object = some it →
      ((it.dispatchEvent (InteractEvent.new .click hit.object hit)).ev.stopped = true →
        clickLoop m (hit :: rest) log = clickLoop m (hit :: rest2) log) ∧
      ((it.dispatchEvent (InteractEvent.new .pointerdown hit.object hit)).ev.stopped = true →
        pointerDownLoop m (hit :: rest) log = pointerDownLoop m (hit :: rest2) log) ∧
      ((it.dispatchEvent (InteractEvent.new .pointerup hit.object hit)).ev.stopped = true →
        pointerUpLoop m (hit :: rest) log = pointerUpLoop m (hit :: rest2) log) ∧
      ∀ dx dy : Int,
        ((it.dispatchEvent { InteractEvent.new .pointermove hit.object hit with
            delta := ⟨dx, dy⟩ }).ev.stopped = true →
          pointerMoveLoop dx dy m (hit :: rest) log =
            pointerMoveLoop dx dy m (hit :: rest2) log)) ∧
    ((mgrNearFar.onClick 0 0 [⟨0, 3⟩, ⟨1, 5⟩]).2 = [⟨10, .click, 0, ⟨0, 0⟩⟩] ∧
      ∀ inv ∈ (mgrNearFar.onClick 0 0 [⟨0, 3⟩, ⟨1, 5⟩]).2, inv.hid ≠ 20) := by
  refine ⟨?_, ?_, by decide, by decide⟩
  · intro h
    exact ⟨clickLoop_skip m hit rest log h, pointerDownLoop_skip m hit rest log h,
      pointerUpLoop_skip m hit rest log h,
      fun dx dy => pointerMoveLoop_skip dx dy m hit rest log h⟩
  · intro it h
    refine ⟨fun hstop => ?_, fun hstop => ?_, fun hstop => ?_, fun dx dy hstop => ?_⟩
    · rw [clickLoop_halt m hit rest log it h hstop,
        clickLoop_halt m hit rest2 log it h hstop]
    · rw [pointerDownLoop_halt m hit rest log it h hstop,
        pointerDownLoop_halt m hit rest2 log it h hstop]
    · rw [pointerUpLoop_halt m hit rest log it h hstop,
        pointerUpLoop_halt m hit rest2 log it h hstop]
    · rw [pointerMoveLoop_halt dx dy m hit rest log it h hstop,
        pointerMoveLoop_halt dx dy m hit rest2 log it h hstop]

/-- Witness for C1: concrete skip of an unregistered hit and concrete halt
after the near object's stopping dispatch. -/
theorem C1_witness :
    (jsGet mgrNearFar.interactables (5 : Nat) = none ∧
      clickLoop mgrNearFar [⟨5, 1⟩, ⟨0, 2⟩] [] = clickLoop mgrNearFar [⟨0, 2⟩] []) ∧
    (jsGet mgrNearFar.interactables (0 : Nat) = some wrapNear ∧
      (wrapNear.dispatchEvent (InteractEvent.new .click 0 ⟨0, 3⟩)).ev.stopped = true ∧
      clickLoop mgrNearFar [⟨0, 3⟩, ⟨1, 5⟩] [] = clickLoop mgrNearFar [⟨0, 3⟩] []) :=
  ⟨⟨by decide,
    ((C1_dispatch_loop mgrNearFar ⟨5, 1⟩ [⟨0, 2⟩] [] []).1 (by decide)).1⟩,
   ⟨by decide, by decide,
    (((C1_dispatch_loop mgrNearFar ⟨0, 3⟩ [⟨1, 5⟩] [] []).2.1 wrapNear (by decide)).1
      (by decide))⟩⟩

/-- C2 counterexample: with both hit objects registered and carrying no
handlers, a pointerdown over hit list [0, 1] leaves `dragObject` and
`activeObject` equal to the farther object 1, not the nearest object 0 the
claim requires. -/
theorem C2_counterexample :
    (mgrTwoPlain.onPointerDown 0 0 [⟨0, 3⟩, ⟨1, 5⟩]).1.dragObject = some 1 ∧
    (mgrTwoPlain.onPointerDown 0 0 [⟨0, 3⟩, ⟨1, 5⟩]).1.activeObject = some 1 ∧
    ¬ (mgrTwoPlain.onPointerDown 0 0 [⟨0, 3⟩, ⟨1, 5⟩]).1.dragObject = some 0 := by
  decide

/-- Companion definition following the amended claim's words, to be
compared with the source's `pointerDownLoop`: the identity of the last
registered hit the pointerdown loop dispatches to, or `acc` (the target's
prior value) when no registered hit is dispatched. The loop's evolving
wrapper state and stop decisions are replayed exactly. -/
def specLastDispatchedTarget : InteractManager → List Intersection → Option Nat → Option Nat
  | _, [], acc => acc
  | m, hit :: rest, acc =>
    match jsGet m.interactables hit.object with
    | none => specLastDispatchedTarget m rest acc
    | some it =>
      let r := it.dispatchEvent (InteractEvent.new .pointerdown hit.object hit)
      if r.ev.stopped then some hit.object
      else specLastDispatchedTarget
        { m with interactables := jsSet m.interactables hit.object r.wrapper,
                 dragObject := some hit.object,
                 activeObject := some hit.object }
        rest (some hit.object)

theorem pointerDownLoop_targets : ∀ (hits : List Intersection) (m : InteractManager)
    (log : List Invocation),
    (pointerDownLoop m hits log).1.dragObject =
      specLastDispatchedTarget m hits m.dragObject ∧
    (pointerDownLoop m hits log).1.activeObject =
      specLastDispatchedTarget m hits m.activeObject := by
  intro hits
  induction hits with
  | nil => intro m log; simp [pointerDownLoop, specLastDispatchedTarget]
  | cons hit rest ih =>
    intro m log
    cases h : jsGet m.interactables hit.object with
    | none =>
      rw [pointerDownLoop_skip m hit rest log h]
      simp only [specLastDispatchedTarget, h]
      exact ih m log
    | some it =>
      cases hs : (it.dispatchEvent (InteractEvent.new .pointerdown hit.object hit)).ev.stopped with
      | true =>
        rw [pointerDownLoop_halt m hit rest log it h hs]
        simp [specLastDispatchedTarget, h, hs]
      | false =>
        rw [pointerDownLoop_step m hit rest log it h hs]
        simp only [specLastDispatchedTarget, h, hs, Bool.false_eq_true, if_false]
        exact ih _ _

/-- Wrapper of object 2 whose pointerdown handler (id 11) calls stop. -/
def wrapDownStop : Interactable := ⟨2, [(.pointerdown, [⟨11, [.stop]⟩])]⟩

/-- Manager with only `wrapDownStop` registered. -/
def mgrDownStop : InteractManager := ⟨[(2, wrapDownStop)], [], none, none, ⟨0, 0⟩⟩

/-- C2 (amended): on a pointerdown sample the drag and active targets are
reassigned after every dispatched registered hit rather than once — a
registered hit whose dispatch does not stop hands the loop a state whose
targets it has just overwritten — and at return both targets equal the
identity of the last registered hit the loop dispatched to (their prior
value when no registered hit is dispatched), stated via the companion
function `specLastDispatchedTarget` and proved for every coordinator state,
hit list and handler behaviour, at loop level and at the entry point; the
nearest hit wins exactly in the case of the first conjunct, when its own
dispatch leaves the stop flag set. -/
theorem C2_drag_target_assignment :
    (∀ (m : InteractManager) (hit : Intersection) (rest : List Intersection)
      (log : List Invocation) (it : Interactable),
      jsGet m.interactables hit.object = some it →
      (it.dispatchEvent (InteractEvent.new .pointerdown hit.object hit)).ev.stopped = true →
      (pointerDownLoop m (hit :: rest) log).1.dragObject = some hit.object ∧
      (pointerDownLoop m (hit :: rest) log).1.activeObject = some hit.object) ∧
    (∀ (m : InteractManager) (hit : Intersection) (rest : List Intersection)
      (log : List Invocation) (it : Interactable),
      jsGet m.interactables hit.object = some it →
      (it.dispatchEvent (InteractEvent.new .pointerdown hit.object hit)).ev.stopped = false →
      pointerDownLoop m (hit :: rest) log =
        pointerDownLoop
          { m with interactables := jsSet m.interactables hit.object
                     (it.dispatchEvent (InteractEvent.new .pointerdown hit.object hit)).wrapper,
                   dragObject := some hit.object,
                   activeObject := some hit.object }
          rest (log ++ (it.dispatchEvent (InteractEvent.new .pointerdown hit.object hit)).log)) ∧
    (∀ (m : InteractManager) (hits : List Intersection) (log : List Invocation),
      (pointerDownLoop m hits log).1.dragObject =
        specLastDispatchedTarget m hits m.dragObject ∧
      (pointerDownLoop m hits log).1.activeObject =
        specLastDispatchedTarget m hits m.activeObject) ∧
    (∀ (m : InteractManager) (cx cy : Int) (hits : List Intersection),
      (m.onPointerDown cx cy hits).1.dragObject =
        specLastDispatchedTarget { m with lastMousePosition := ⟨cx, cy⟩ } hits
          m.dragObject ∧
      (m.onPointerDown cx cy hits).1.activeObject =
        specLastDispatchedTarget { m with lastMousePosition := ⟨cx, cy⟩ } hits
          m.activeObject) := by
  refine ⟨?_, ?_, ?_, ?_⟩
  · intro m hit rest log it h hstop
    rw [pointerDownLoop_halt m hit rest log it h hstop]
    exact ⟨rfl, rfl⟩
  · intro m hit rest log it h hgo
    exact pointerDownLoop_step m hit rest log it h hgo
  · intro m hits log
    exact pointerDownLoop_targets hits m log
  · intro m cx cy hits
    rw [onPointerDown_eq]
    exact pointerDownLoop_targets hits { m with lastMousePosition := ⟨cx, cy⟩ } []

/-- Witness for C2: the stop-at-nearest part applied at a concrete state
whose pointerdown handler stops, and the last-dispatched equation observed
at the counterexample state. -/
theorem C2_witness :
    (jsGet mgrDownStop.interactables (2 : Nat) = some wrapDownStop ∧
      (wrapDownStop.dispatchEvent (InteractEvent.new .pointerdown 2 ⟨2, 1⟩)).ev.stopped = true ∧
      (pointerDownLoop mgrDownStop [⟨2, 1⟩, ⟨9, 9⟩] []).1.dragObject = some 2) ∧
    ((pointerDownLoop mgrTwoPlain [⟨0, 3⟩, ⟨1, 5⟩] []).1.dragObject =
        specLastDispatchedTarget mgrTwoPlain [⟨0, 3⟩, ⟨1, 5⟩] mgrTwoPlain.dragObject ∧
      specLastDispatchedTarget mgrTwoPlain [⟨0, 3⟩, ⟨1, 5⟩] mgrTwoPlain.dragObject = some 1) :=
  ⟨⟨by decide, by decide,
    ((C2_drag_target_assignment.1 mgrDownStop ⟨2, 1⟩ [⟨9, 9⟩] [] wrapDownStop (by decide)
      (by decide)).1)⟩,
   ⟨(C2_drag_target_assignment.2.2.1 mgrTwoPlain [⟨0, 3⟩, ⟨1, 5⟩] []).1, by decide⟩⟩

/-- C3: the registry's dispatch iterates the live handler array rather
than a snapshot; at the failing input, a click sequence [selfRemover,
passiveTwo] whose first handler unregisters itself, only the first handler
is invoked and the sibling present at dispatch start is skipped —
contradicting the claim that every handler present at dispatch start runs
exactly once. -/
theorem C3_live_iteration_skips_sibling :
    (wrapSelfPair.dispatchEvent (InteractEvent.new .click 0 ⟨0, 0⟩)).log =
      [⟨1, .click, 0, ⟨0, 0⟩⟩] ∧
    ∀ inv ∈ (wrapSelfPair.dispatchEvent (InteractEvent.new .click 0 ⟨0, 0⟩)).log,
      inv.hid ≠ 2 := by
  decide

/-- Wrapper of object 0 with one passive enter handler (id 1) and one
passive leave handler (id 2). -/
def wrapHover : Interactable := ⟨0, [(.pointerenter, [⟨1, []⟩]), (.pointerleave, [⟨2, []⟩])]⟩

/-- Manager with only `wrapHover` registered and nothing hovered. -/
def mgrHover : InteractManager := ⟨[(0, wrapHover)], [], none, none, ⟨0, 0⟩⟩

/-- Hover sample 1: hit list [A]. -/
def hoverS1 : InteractManager × List Invocation := mgrHover.processRaycast [⟨0, 5⟩]

/-- Hover sample 2: hit list []. -/
def hoverS2 : InteractManager × List Invocation := hoverS1.1.processRaycast []

/-- Hover sample 3: hit list [] again. -/
def hoverS3 : InteractManager × List Invocation := hoverS2.1.processRaycast []

/-- Wrapper of object 0 whose leave handler (id 1) calls stop. -/
def wrapLeaveStop : Interactable := ⟨0, [(.pointerleave, [⟨1, [.stop]⟩])]⟩

/-- Wrapper of object 1 with a passive leave handler (id 2). -/
def wrapLeavePassive : Interactable := ⟨1, [(.pointerleave, [⟨2, []⟩])]⟩

/-- Manager with objects 0 and 1 registered and both currently hovered. -/
def mgrLeave : InteractManager :=
  ⟨[(0, wrapLeaveStop), (1, wrapLeavePassive)], [0, 1], none, none, ⟨0, 0⟩⟩

/-- Manager with `wrapHover` registered and object 0 already hovered. -/
def mgrHoverOn : InteractManager := ⟨[(0, wrapHover)], [0], none, none, ⟨0, 0⟩⟩

/-- C4: hover diffing fires pointerenter exactly once on an
absent-to-present transition and pointerleave exactly once, with no early
stop, for every hovered object absent from the hit list, and fires nothing
for an object whose hover state is unchanged. Concretely the samples [A],
[], [] produce one enter, one leave, then nothing; an object both hovered
and hit receives no hover event at all; and a stopping leave handler on a
nearer object does not prevent the farther object's leave. -/
theorem C4_hover_diffing :
    (hoverS1.2 = [⟨1, .pointerenter, 0, ⟨0, 0⟩⟩] ∧
      hoverS1.1.hoveredObjects = [0] ∧
      hoverS2.2 = [⟨2, .pointerleave, 0, ⟨0, 0⟩⟩] ∧
      hoverS2.1.hoveredObjects = [] ∧
      hoverS3.2 = []) ∧
    (∀ (m : InteractManager) (hits : List Intersection) (obj : Nat),
      obj ∈ m.hoveredObjects → obj ∈ hits.map Intersection.object →
      ∀ inv ∈ (m.processRaycast hits).2, inv.target ≠ obj) ∧
    ((mgrLeave.processRaycast []).2 =
      [⟨1, .pointerleave, 0, ⟨0, 0⟩⟩, ⟨2, .pointerleave, 1, ⟨0, 0⟩⟩]) := by
  refine ⟨by decide, ?_, by decide⟩
  intro m hits obj hhov hhit inv hinv
  exact processRaycast_target m hits obj hhov hhit inv hinv

/-- Witness for C4: the steady-hover part applied at a concrete state where
object 0 is hovered and hit. -/
theorem C4_witness :
    ((0 : Nat) ∈ mgrHoverOn.hoveredObjects ∧
      (0 : Nat) ∈ ([(⟨0, 5⟩ : Intersection)].map Intersection.object)) ∧
    ∀ inv ∈ (mgrHoverOn.processRaycast [⟨0, 5⟩]).2, inv.target ≠ 0 :=
  ⟨⟨by decide, by decide⟩,
   C4_hover_diffing.2.1 mgrHoverOn [⟨0, 5⟩] 0 (by decide) (by decide)⟩

/-- Wrapper of object 7 with a passive drag handler (id 3). -/
def wrapDrag : Interactable := ⟨7, [(.drag, [⟨3, []⟩])]⟩

/-- Manager with `wrapDrag` registered. -/
def mgrDrag : InteractManager := ⟨[(7, wrapDrag)], [], none, none, ⟨0, 0⟩⟩

/-- Drag sample 1: pointerdown at (0,0) hitting object 7. -/
def dragS1 : InteractManager × List Invocation := mgrDrag.onPointerDown 0 0 [⟨7, 5⟩]

/-- Drag sample 2: pointermove to (5,10); the hit list is empty, showing
the drag dispatch does not consult it. -/
def dragS2 : InteractManager × List Invocation := dragS1.1.onPointerMove 5 10 []

/-- Drag sample 3: pointerup at (5,10). -/
def dragS3 : InteractManager × List Invocation := dragS2.1.onPointerUp 5 10 []

/-- Drag sample 4: pointermove after the pointerup. -/
def dragS4 : InteractManager × List Invocation := dragS3.1.onPointerMove 5 10 []

/-- C5: pointerdown on a hit registered object sets it as the drag target;
the following pointermove with displacement (5,10) dispatches exactly one
drag event with delta {x:5, y:10} to it, without consulting the hit list;
pointerup clears the drag target unconditionally, and with no drag target a
pointermove dispatches no drag event. -/
theorem C5_drag_lifecycle :
    (∀ (m : InteractManager) (cx cy : Int) (hits : List Intersection),
      (m.onPointerUp cx cy hits).1.dragObject = none) ∧
    (∀ (m : InteractManager) (cx cy : Int) (hits : List Intersection),
      m.dragObject = none →
      ∀ inv ∈ (m.onPointerMove cx cy hits).2, inv.etype ≠ .drag) ∧
    (dragS1.1.dragObject = some 7 ∧
      dragS2.2 = [⟨3, .drag, 7, ⟨5, 10⟩⟩] ∧
      dragS3.1.dragObject = none ∧
      dragS4.2 = []) := by
  refine ⟨?_, ?_, by decide⟩
  · intro m cx cy hits
    exact (onPointerUp_state m cx cy hits).1
  · intro m cx cy hits h
    exact onPointerMove_no_drag m cx cy hits h

/-- Witness for C5: the no-drag-after-clear part applied at a concrete
state with no drag target but a hit registered object. -/
theorem C5_witness :
    mgrDrag.dragObject = none ∧
    ∀ inv ∈ (mgrDrag.onPointerMove 1 2 [⟨7, 5⟩]).2, inv.etype ≠ .drag :=
  ⟨by decide, C5_drag_lifecycle.2.1 mgrDrag 1 2 [⟨7, 5⟩] (by decide)⟩

/-- A wrapper whose click sequence holds only the self-removing handler. -/
def wrapSelfOnly : Interactable := ⟨0, [(.click, [selfRemover])]⟩

/-- C6: at the failing input — a click sequence holding exactly one
handler, whose body unregisters that handler — dispatch invokes the handler
yet returns false, because the return value `handlers.length > 0` is
evaluated on the live (now emptied) array after the handlers ran; the claim
requires dispatch to return true whenever the kind had an entry. -/
theorem C6_dispatch_return_false_after_invoking :
    (wrapSelfOnly.dispatchEvent (InteractEvent.new .click 0 ⟨0, 0⟩)).log =
      [⟨1, .click, 0, ⟨0, 0⟩⟩] ∧
    (wrapSelfOnly.dispatchEvent (InteractEvent.new .click 0 ⟨0, 0⟩)).handled = false := by
  decide

/-- Manager with `wrapDrag` registered and object 7 mid-drag (both targets
set to 7). -/
def mgrMidDrag : InteractManager := ⟨[(7, wrapDrag)], [], some 7, some 7, ⟨0, 0⟩⟩

/-- C7: remove evicts the object from the registry and the hover set,
clears each target that equals it, touches nothing else and dispatches no
event; the referential-integrity invariant (targets, when present, name
registered identities) is preserved by every operation; and removing the
current drag target mid-drag leaves a state whose following pointermove
dispatches no drag event and whose pointerup leaves no drag target. -/
theorem C7_remove_and_invariant :
    (∀ (m : InteractManager) (obj : Nat),
      jsGet (m.remove obj).interactables obj = none ∧
      obj ∉ (m.remove obj).hoveredObjects ∧
      (m.remove obj).dragObject =
        (if m.dragObject = some obj then none else m.dragObject) ∧
      (m.remove obj).activeObject =
        (if m.activeObject = some obj then none else m.activeObject) ∧
      ∀ o, o ≠ obj → jsGet (m.remove obj).interactables o = jsGet m.interactables o) ∧
    (∀ (m : InteractManager) (obj : Nat) (cx cy : Int) (hits : List Intersection),
      GoodRefs m →
      GoodRefs (m.add obj).1 ∧ GoodRefs (m.remove obj) ∧
      GoodRefs (m.onClick cx cy hits).1 ∧ GoodRefs (m.onPointerDown cx cy hits).1 ∧
      GoodRefs (m.onPointerUp cx cy hits).1 ∧ GoodRefs (m.onPointerMove cx cy hits).1) ∧
    (∀ (m : InteractManager) (d : Nat) (cx cy : Int) (hits : List Intersection),
      m.dragObject = some d →
      (m.remove d).dragObject = none ∧
      (∀ inv ∈ ((m.remove d).onPointerMove cx cy hits).2, inv.etype ≠ .drag) ∧
      ((m.remove d).onPointerUp cx cy hits).1.dragObject = none) := by
  refine ⟨?_, ?_, ?_⟩
  · intro m obj
    rw [remove_eq]
    refine ⟨jsGet_jsDelete_self _ _, ?_, rfl, rfl,
      fun o ho => jsGet_jsDelete_ne _ _ _ ho⟩
    simp [List.mem_filter]
  · intro m obj cx cy hits h
    exact ⟨add_goodrefs m obj h, remove_goodrefs m obj h, onClick_goodrefs m cx cy hits h,
      onPointerDown_goodrefs m cx cy hits h, onPointerUp_goodrefs m cx cy hits,
      onPointerMove_goodrefs m cx cy hits h⟩
  · intro m d cx cy hits hd
    have h1 : (m.remove d).dragObject = none := by
      rw [remove_eq]
      simp [hd]
    exact ⟨h1, onPointerMove_no_drag _ cx cy hits h1, (onPointerUp_state _ cx cy hits).1⟩

/-- Witness for C7: the invariant and mid-drag removal parts applied at a
concrete mid-drag state. -/
theorem C7_witness :
    (GoodRefs mgrMidDrag ∧ mgrMidDrag.dragObject = some 7) ∧
    GoodRefs (mgrMidDrag.add 3).1 ∧
    (mgrMidDrag.remove 7).dragObject = none ∧
    ((mgrMidDrag.remove 7).onPointerUp 1 1 []).1.dragObject = none :=
  ⟨⟨by unfold GoodRefs; decide, by decide⟩,
   (C7_remove_and_invariant.2.1 mgrMidDrag 3 0 0 [] (by unfold GoodRefs; decide)).1,
   (C7_remove_and_invariant.2.2 mgrMidDrag 7 1 1 [] (by decide)).1,
   (C7_remove_and_invariant.2.2 mgrMidDrag 7 1 1 [] (by decide)).2.2⟩

/-- Wrapper of object 5 carrying one click handler (id 9). -/
def wrapWithClick : Interactable := ⟨5, [(.click, [⟨9, []⟩])]⟩

/-- Manager with `wrapWithClick` registered. -/
def mgrC8 : InteractManager := ⟨[(5, wrapWithClick)], [], none, none, ⟨0, 0⟩⟩

/-- C8: add is idempotent on object identity — with the object already
registered it returns the stored wrapper and changes nothing; with the
object unregistered it stores and returns a fresh wrapper with no
handlers; and remove followed by add yields a fresh handler-free wrapper
distinct from the old one. -/
theorem C8_add_idempotent :
    (∀ (m : InteractManager) (obj : Nat) (it : Interactable),
      jsGet m.interactables obj = some it → m.add obj = (m, it)) ∧
    (∀ (m : InteractManager) (obj : Nat),
      jsGet m.interactables obj = none →
      (m.add obj).2 = Interactable.new obj ∧
      (m.add obj).2.eventHandlers = [] ∧
      jsGet (m.add obj).1.interactables obj = some (Interactable.new obj)) ∧
    ((mgrC8.add 5).2 = wrapWithClick ∧
      ((mgrC8.remove 5).add 5).2 = Interactable.new 5 ∧
      ¬ ((mgrC8.remove 5).add 5).2 = (mgrC8.add 5).2) := by
  refine ⟨?_, ?_, by decide⟩
  · intro m obj it h
    simp [InteractManager.add, h]
  · intro m obj h
    refine ⟨?_, ?_, ?_⟩ <;> simp [InteractManager.add, h, jsGet_jsSet, Interactable.new]

/-- Witness for C8: the idempotent branch applied at a concrete registered
state. -/
theorem C8_witness :
    jsGet mgrC8.interactables (5 : Nat) = some wrapWithClick ∧
    mgrC8.add 5 = (mgrC8, wrapWithClick) :=
  ⟨by decide, C8_add_idempotent.1 mgrC8 5 wrapWithClick (by decide)⟩

/-- A passive click handler (id 5) registered twice in `wrapDup`. -/
def dupHandler : Handler := ⟨5, []⟩

/-- Wrapper whose click sequence holds the same handler reference twice. -/
def wrapDup : Interactable := ⟨0, [(.click, [dupHandler, dupHandler])]⟩

/-- A passive click handler (id 6). -/
def handlerSix : Handler := ⟨6, []⟩

/-- A passive click handler (id 7). -/
def handlerSeven : Handler := ⟨7, []⟩

/-- Wrapper with two distinct click handlers. -/
def wrapPairAB : Interactable := ⟨0, [(.click, [handlerSix, handlerSeven])]⟩

/-- C9 counterexample: when the same handler reference is registered twice
(which registration permits), off removes only the first occurrence, so a
subsequent dispatch still invokes the handler — the claim's "a subsequent
dispatch of that kind never invokes h" is false as stated. -/
theorem C9_counterexample :
    ((wrapDup.off .click (some dupHandler)).dispatchEvent
        (InteractEvent.new .click 0 ⟨0, 0⟩)).log = [⟨5, .click, 0, ⟨0, 0⟩⟩] ∧
    ∃ inv ∈ ((wrapDup.off .click (some dupHandler)).dispatchEvent
        (InteractEvent.new .click 0 ⟨0, 0⟩)).log, inv.hid = dupHandler.id := by
  decide

/-- C9 (amended): off with the handler omitted removes the kind's whole
entry; off(kind, h) removes exactly the first occurrence identical to h and
drops the kind's entry when the sequence empties (after which dispatch
behaves exactly like a never-registered kind); provided h was registered at
most once, a subsequent dispatch of that kind never invokes h; other
handlers registered on the kind remain invoked. -/
theorem C9_off_semantics (it : Interactable) (k : EKind) (h : Handler) :
    jsGet ((it.off k none).eventHandlers) k = none ∧
    (∀ hs, jsGet it.eventHandlers k = some hs →
      (it.off k (some h)).eventHandlers =
        (if removeFirst hs h.id = [] then jsDelete it.eventHandlers k
         else jsSet it.eventHandlers k (removeFirst hs h.id))) ∧
    (∀ hs, jsGet it.eventHandlers k = some hs →
      ((hs.map Handler.id).count h.id) ≤ 1 →
      ∀ e : InteractEvent, e.type = k →
        ∀ inv ∈ ((it.off k (some h)).dispatchEvent e).log, inv.hid ≠ h.id) ∧
    (∀ hs, jsGet it.eventHandlers k = some hs →
      removeFirst hs h.id = [] →
      ∀ e : InteractEvent, e.type = k →
        (it.off k (some h)).dispatchEvent e = ⟨it.off k (some h), e, false, []⟩) ∧
    ((wrapPairAB.off .click (some handlerSix)).dispatchEvent
        (InteractEvent.new .click 0 ⟨0, 0⟩)).log = [⟨7, .click, 0, ⟨0, 0⟩⟩] := by
  have heh : ∀ hs, jsGet it.eventHandlers k = some hs →
      (it.off k (some h)).eventHandlers =
        (if removeFirst hs h.id = [] then jsDelete it.eventHandlers k
         else jsSet it.eventHandlers k (removeFirst hs h.id)) := by
    intro hs hg
    simp only [Interactable.off, hg]
    split <;> rfl
  refine ⟨?_, heh, ?_, ?_, by decide⟩
  · simp [Interactable.off, jsGet_jsDelete_self]
  · intro hs hg hcount e hek inv hinv
    obtain ⟨hs', hget, hmem⟩ := dispatchEvent_log_hid _ e inv hinv
    rw [hek, heh hs hg] at hget
    by_cases hemp : removeFirst hs h.id = []
    · rw [if_pos hemp, jsGet_jsDelete_self] at hget
      exact absurd hget (by simp)
    · rw [if_neg hemp, jsGet_jsSet, if_pos rfl] at hget
      have hrw : hs' = removeFirst hs h.id := (Option.some.inj hget).symm
      intro heq
      have hmem' : inv.hid ∈ (removeFirst hs h.id).map Handler.id := hrw ▸ hmem
      rw [heq] at hmem'
      exact not_mem_removeFirst hs h.id hcount hmem'
  · intro hs hg hemp e hek
    refine dispatchEvent_none _ e ?_
    rw [heh hs hg, if_pos hemp, hek]
    exact jsGet_jsDelete_self _ _

/-- Witness for C9: the single-registration part applied at a concrete
registry holding two distinct handlers. -/
theorem C9_witness :
    (jsGet wrapPairAB.eventHandlers .click = some [handlerSix, handlerSeven] ∧
      (([handlerSix, handlerSeven].map Handler.id).count handlerSix.id) ≤ 1 ∧
      (InteractEvent.new .click 0 ⟨0, 0⟩).type = .click) ∧
    ∀ inv ∈ ((wrapPairAB.off .click (some handlerSix)).dispatchEvent
        (InteractEvent.new .click 0 ⟨0, 0⟩)).log, inv.hid ≠ handlerSix.id :=
  ⟨⟨by decide, by decide, by decide⟩,
   (C9_off_semantics wrapPairAB .click handlerSix).2.2.1 [handlerSix, handlerSeven]
     (by decide) (by decide) (InteractEvent.new .click 0 ⟨0, 0⟩) (by decide)⟩

/-- Wrapper of object 0 whose enter handler (id 1) calls stop. -/
def wrapEnterStop : Interactable := ⟨0, [(.pointerenter, [⟨1, [.stop]⟩])]⟩

/-- Wrapper of object 1 with a passive enter handler (id 2). -/
def wrapEnterPassive : Interactable := ⟨1, [(.pointerenter, [⟨2, []⟩])]⟩

/-- Manager with the stopping and passive enter wrappers registered. -/
def mgrEnter : InteractManager :=
  ⟨[(0, wrapEnterStop), (1, wrapEnterPassive)], [], none, none, ⟨0, 0⟩⟩

/-- Enter sample 1 over [0, 1]: 0's enter handler stops the loop. -/
def enterS1 : InteractManager × List Invocation :=
  mgrEnter.processRaycast [⟨0, 3⟩, ⟨1, 5⟩]

/-- Enter sample 2 over the same hit list. -/
def enterS2 : InteractManager × List Invocation :=
  enterS1.1.processRaycast [⟨0, 3⟩, ⟨1, 5⟩]

/-- C10: when a pointerenter dispatch on a nearer newly-hovered object
returns true with the stop flag set, the enter loop halts: farther newly
hit objects are neither dispatched pointerenter nor added to the hover set,
so the result is independent of the remaining hits and the hover set gains
only the nearer object; on the next sample over the same hit list such an
object is treated as newly present and receives pointerenter. -/
theorem C10_enter_stop_blocks_farther (m : InteractManager) (hit : Intersection)
    (rest rest2 : List Intersection) (log : List Invocation) :
    (∀ it, jsGet m.interactables hit.object = some it →
      hit.object ∉ m.hoveredObjects →
      ((it.dispatchEvent (InteractEvent.new .pointerenter hit.object hit)).handled &&
        (it.dispatchEvent (InteractEvent.new .pointerenter hit.object hit)).ev.stopped) = true →
      enterLoop m (hit :: rest) log = enterLoop m (hit :: rest2) log ∧
      (enterLoop m (hit :: rest) log).1.hoveredObjects = m.hoveredObjects ++ [hit.object]) ∧
    (enterS1.2 = [⟨1, .pointerenter, 0, ⟨0, 0⟩⟩] ∧
      enterS1.1.hoveredObjects = [0] ∧
      enterS2.2 = [⟨2, .pointerenter, 1, ⟨0, 0⟩⟩] ∧
      enterS2.1.hoveredObjects = [0, 1]) := by
  refine ⟨?_, by decide⟩
  intro it h hmem hb
  constructor
  · rw [enterLoop_halt m hit rest log it h hmem hb,
      enterLoop_halt m hit rest2 log it h hmem hb]
  · rw [enterLoop_halt m hit rest log it h hmem hb]

/-- Witness for C10: the halt part applied at the concrete two-object
state. -/
theorem C10_witness :
    (jsGet mgrEnter.interactables (0 : Nat) = some wrapEnterStop ∧
      (0 : Nat) ∉ mgrEnter.hoveredObjects ∧
      ((wrapEnterStop.dispatchEvent (InteractEvent.new .pointerenter 0 ⟨0, 3⟩)).handled &&
        (wrapEnterStop.dispatchEvent
          (InteractEvent.new .pointerenter 0 ⟨0, 3⟩)).ev.stopped) = true) ∧
    (enterLoop mgrEnter [⟨0, 3⟩, ⟨1, 5⟩] [] = enterLoop mgrEnter [⟨0, 3⟩] [] ∧
      (enterLoop mgrEnter [⟨0, 3⟩, ⟨1, 5⟩] []).1.hoveredObjects =
        mgrEnter.hoveredObjects ++ [0]) :=
  ⟨⟨by decide, by decide, by decide⟩,
   (C10_enter_stop_blocks_farther mgrEnter ⟨0, 3⟩ [⟨1, 5⟩] [] []).1 wrapEnterStop
     (by decide) (by decide) (by decide)⟩

end ThreeInteract
